import Mathlib

/-!
Verification of the MKtoPDF markdown-to-PDF pipeline.

This file gives a shallow embedding, in Lean, of the string- and
list-level algorithms of the repository:

* `preprocessMarkdown`    (src/lib/markdownEngine.ts, the `==text==` rewrite)
* `sanitizeHtml`          (src/lib/markdownEngine.ts, protect / purify / restore)
* `renderMermaidDiagrams` (src/lib/markdownEngine.ts, the diagram pass)
* `transformCallouts`     (src/lib/markdownEngine.ts, the callout title logic)
* `resolveCalloutType` and the callout registry (src/lib/styleSettings.ts)
* `stylesToCSSVars` header/footer slots and the `printPdf` header/footer
  slots (src/lib/styleSettings.ts, src/hooks/useExport.ts)
* `parseMarkdown`         (src/lib/markdownParser.ts)
* the worker message handler (src/workers/markdown.worker.ts)

JavaScript strings are modelled as `List Char` / `String`; the JS regular
expressions used by the source are compiled by hand into executable
scanners that follow the engine's leftmost-match / lazy-quantifier
semantics.  Scanners that consume more than one character per step take an
explicit fuel argument (always instantiated with the exact length of the
list being scanned) so that every definition computes by `rfl` / `decide`.
-/

namespace MKtoPDF

/-! ## Preliminaries -/

/-- Substring relation on strings: `p` occurs contiguously in `s`. -/
def IsSubstr (p s : String) : Prop := ∃ a b : List Char, s.data = a ++ p.data ++ b

/-! ## Highlight preprocessor

Source (src/lib/markdownEngine.ts lines 49-54):

  return markdown.replace(/==((?:[^=]|=[^=])+?)==/g, '<mark>$1</mark>');

The content group is a lazy one-or-more repetition of the atom
`[^=] | =[^=]`.  In JavaScript a negated character class also matches a
newline, so the atom accepts every character except a bare `=` followed by
`=`.  The lazy repetition consumes one atom, then after every atom first
tries to close with `==` before consuming another atom.  -/

/-- Consume one atom of the highlight content group: a non-`=` character,
or `=` followed by a non-`=` character.  Returns the consumed characters
and the rest. -/
def hlAtom : List Char → Option (List Char × List Char)
  | c :: r => if c = '=' then
      match r with
      | d :: r2 => if d = '=' then none else some (['=', d], r2)
      | [] => none
    else some ([c], r)
  | [] => none

/-- Lazy scan after at least one atom has been consumed: first try to
close with `==`, otherwise consume one more atom.  `acc` holds the content
so far, reversed.  Total via fuel; called with fuel at least the length of
the list being scanned. -/
def hlLoop : Nat → List Char → List Char → Option (List Char × List Char)
  | fuel + 1, acc, l =>
    if l.take 2 = ['=', '='] then some (acc.reverse, l.drop 2)
    else
      match hlAtom l with
      | some (a, r) => hlLoop fuel (a.reverse ++ acc) r
      | none => none
  | 0, acc, l =>
    if l.take 2 = ['=', '='] then some (acc.reverse, l.drop 2) else none

/-- Match the highlight body starting just after the opening `==`:
one mandatory atom, then the lazy close-or-consume loop.  Returns the
captured content and the characters after the closing `==`. -/
def hlStart (l : List Char) : Option (List Char × List Char) :=
  match hlAtom l with
  | some (a, r) => hlLoop r.length a.reverse r
  | none => none

/-- Global replace pass of `markdown.replace(/==((?:[^=]|=[^=])+?)==/g,
'<mark>$1</mark>')`: at each position try the pattern (an opening `==`
whose body matches); on a match emit the replacement and continue after
the match, otherwise emit one character and move on.  Total via fuel;
called with fuel at least the length of the list. -/
def preprocessGo : Nat → List Char → List Char
  | fuel + 1, l =>
    if l.take 2 = ['=', '='] then
      match hlStart (l.drop 2) with
      | some (content, rest) =>
        ("<mark>".data ++ content ++ "</mark>".data) ++ preprocessGo fuel rest
      | none =>
        match l with
        | c :: r => c :: preprocessGo fuel r
        | [] => []
    else
      match l with
      | c :: r => c :: preprocessGo fuel r
      | [] => []
  | 0, l => l

/-- `preprocessMarkdown` from src/lib/markdownEngine.ts lines 49-54 (the
identical function also appears as src/lib/markdownPreprocess.ts). -/
def preprocessMarkdown (markdown : String) : String :=
  ⟨preprocessGo markdown.data.length markdown.data⟩

/-- Decides whether the highlight regular expression matches anywhere in
the input (the same scan `preprocessGo` performs, without rewriting). -/
def hasHlGo : Nat → List Char → Bool
  | fuel + 1, l =>
    if l.take 2 = ['=', '='] then
      match hlStart (l.drop 2) with
      | some _ => true
      | none =>
        match l with
        | _ :: r => hasHlGo fuel r
        | [] => false
    else
      match l with
      | _ :: r => hasHlGo fuel r
      | [] => false
  | 0, _ => false

/-- A `==...==` pair (in the exact sense of the source regex) occurs
somewhere in the input. -/
def hasHlMatch (s : String) : Bool := hasHlGo s.data.length s.data

/-- Highlight content well-formedness: no two consecutive `=` and not
ending in `=` (the conditions under which the lazy scan consumes the whole
content before closing). -/
def okTail : List Char → Bool
  | [] => true
  | c :: r =>
    if c = '=' then
      match r with
      | [] => false
      | d :: _ => if d = '=' then false else okTail r
    else okTail r

/-! ## Callout type registry and resolution

Source: src/lib/styleSettings.ts lines 106-131. -/

/-- One entry of the callout registry: canonical name, display color, icon
glyph, and alias list. -/
structure CalloutDef where
  name : String
  color : String
  icon : String
  aliases : List String
deriving DecidableEq, Repr

/-- `CALLOUT_TYPES` from src/lib/styleSettings.ts lines 106-119, in object
key order. -/
def CALLOUT_TYPES : List CalloutDef :=
  [ ⟨"note", "#448aff", "ℹ️", ["info"]⟩,
    ⟨"tip", "#00bfa5", "💡", ["hint"]⟩,
    ⟨"important", "#7c4dff", "❗", []⟩,
    ⟨"warning", "#ff9100", "⚠️", ["caution", "attention"]⟩,
    ⟨"danger", "#ff1744", "⛔", ["error"]⟩,
    ⟨"example", "#7c4dff", "📋", []⟩,
    ⟨"quote", "#9e9e9e", "💬", ["cite"]⟩,
    ⟨"success", "#00c853", "✅", ["check", "done"]⟩,
    ⟨"question", "#ffab00", "❓", ["faq", "help"]⟩,
    ⟨"bug", "#ff1744", "🐛", []⟩,
    ⟨"abstract", "#00bcd4", "📝", ["summary", "tldr"]⟩,
    ⟨"todo", "#448aff", "📌", []⟩ ]

/-- The canonical type names (the registry's keys). -/
def calloutKeys : List String := CALLOUT_TYPES.map (·.name)

/-- ASCII lower-casing of one character, the effect of JavaScript
`toLowerCase` on the identifiers at hand. -/
def jsLowerChar (c : Char) : Char :=
  if 'A' ≤ c ∧ c ≤ 'Z' then Char.ofNat (c.toNat + 32) else c

/-- JavaScript `toLowerCase` on a string (ASCII model). -/
def jsLower (s : String) : String := ⟨s.data.map jsLowerChar⟩

/-- JavaScript whitespace characters recognised by `trim` and `\s` (core
ASCII set). -/
def jsWs (c : Char) : Bool :=
  c = ' ' ∨ c = '\t' ∨ c = '\n' ∨ c = '\r' ∨ c = '\x0b' ∨ c = '\x0c'

/-- JavaScript `trim`: drop leading and trailing whitespace. -/
def jsTrim (s : String) : String :=
  ⟨((s.data.dropWhile jsWs).reverse.dropWhile jsWs).reverse⟩

/-- Own-property names of `Object.prototype`.  `CALLOUT_TYPES` is a plain
object literal, so a JavaScript bracket lookup on it falls back to the
prototype chain, and every one of these inherited properties holds a
truthy value (a function — or, for `__proto__`, the prototype object
itself): `CALLOUT_TYPES[lower]` is truthy for each of these names even
though none is a registry key. -/
def objectProtoProps : List String :=
  [ "constructor", "hasOwnProperty", "isPrototypeOf", "propertyIsEnumerable",
    "toLocaleString", "toString", "valueOf", "__proto__",
    "__defineGetter__", "__defineSetter__", "__lookupGetter__",
    "__lookupSetter__" ]

/-- `resolveCalloutType` from src/lib/styleSettings.ts lines 124-131:
lower-case and trim; `if (CALLOUT_TYPES[lower]) return lower` — the
bracket lookup is truthy when the identifier is a registry key or an
inherited `Object.prototype` property name; else return the first
registry entry listing the identifier as an alias (`Object.entries`
walks own keys only); else `note`.  (The source binds
`const lower = raw.toLowerCase().trim()`; here the binding is
inlined.) -/
def resolveCalloutType (raw : String) : String :=
  if ((CALLOUT_TYPES.find? (fun e => e.name = jsTrim (jsLower raw))).isSome
      || objectProtoProps.contains (jsTrim (jsLower raw))) then
    jsTrim (jsLower raw)
  else
    match CALLOUT_TYPES.find? (fun e => e.aliases.contains (jsTrim (jsLower raw))) with
    | some e => e.name
    | none => "note"

/-! ## Callout marker match and title text

Source: `transformCallouts` in src/lib/markdownEngine.ts lines 173-239.
The first paragraph's innerHTML is matched against
`/^\s*\[!([\w-]+)\]\s*(.*)/`; then

  const rawType = calloutMatch[1];
  const titleText = calloutMatch[2] || rawType;
  ...
  <span class="callout-title-text">$\x7btitleText ||
    resolvedType.charAt(0).toUpperCase() + resolvedType.slice(1)\x7d</span>
-/

/-- JavaScript `\w` plus hyphen: the callout identifier characters. -/
def jsWordChar (c : Char) : Bool :=
  ('a' ≤ c ∧ c ≤ 'z') ∨ ('A' ≤ c ∧ c ≤ 'Z') ∨ ('0' ≤ c ∧ c ≤ '9') ∨
    c = '_' ∨ c = '-'

/-- Match `/^\s*\[!([\w-]+)\]\s*(.*)/` against a string, returning the two
capture groups (identifier, rest of line) on success.  `.` does not match
a line terminator in JavaScript, so group 2 stops at a newline. -/
def calloutMatch (text : String) : Option (String × String) :=
  match text.data.dropWhile jsWs with
  | '[' :: '!' :: r =>
    let ident := r.takeWhile jsWordChar
    if ident.isEmpty then none
    else
      match r.dropWhile jsWordChar with
      | ']' :: rest =>
        let afterWs := rest.dropWhile jsWs
        some (⟨ident⟩, ⟨afterWs.takeWhile (fun c => c ≠ '\n' ∧ c ≠ '\r')⟩)
      | _ => none
  | _ => none

/-- JavaScript `s.charAt(0).toUpperCase() + s.slice(1)` (ASCII model). -/
def capitalizeJS (s : String) : String :=
  match s.data with
  | [] => ""
  | c :: r => ⟨(if 'a' ≤ c ∧ c ≤ 'z' then Char.ofNat (c.toNat - 32) else c) :: r⟩

/-- The title text `transformCallouts` renders for a blockquote whose
first paragraph has the given innerHTML (`none` when the paragraph is not
a callout marker).  Mirrors src/lib/markdownEngine.ts lines 187-206. -/
def calloutTitleRendered (text : String) : Option String :=
  match calloutMatch text with
  | none => none
  | some (rawType, m2) =>
    let titleText := if m2 = "" then rawType else m2
    let resolvedType := resolveCalloutType rawType
    some (if titleText = "" then capitalizeJS resolvedType else titleText)

/-! ## Header/footer slot strings

Source: `stylesToCSSVars` (src/lib/styleSettings.ts lines 93-99) emits

  '--md-header-left': `"$\x7bsettings.headerLeft\x7d"`,   (and five more)

and `printPdf` (src/hooks/useExport.ts lines 20-25) computes

  const headerLeft = settings.headerLeft ?
    `"$\x7bsettings.headerLeft.replace(/"/g, '\\"')\x7d"` : '""';
-/

/-- JavaScript `v.replace(/"/g, '\\"')`: every quote becomes
backslash-quote. -/
def escapeQuotes (v : String) : String :=
  ⟨(v.data.map (fun c => if c = '"' then ['\\', '"'] else [c])).flatten⟩

/-- Wrap a string in double quotes (the template-literal frame both call
sites use). -/
def quoteWrap (v : String) : String := "\"" ++ v ++ "\""

/-- One header/footer slot value as emitted by `stylesToCSSVars`
(src/lib/styleSettings.ts lines 93-99): the raw field interpolated
between quotes, with no escaping. -/
def cssVarSlot (v : String) : String := quoteWrap v

/-- One header/footer slot value as computed by `printPdf`
(src/hooks/useExport.ts lines 20-25): the empty string gives `""`, any
other value is quote-escaped and wrapped. -/
def printPdfSlot (v : String) : String :=
  if v = "" then quoteWrap "" else quoteWrap (escapeQuotes v)

/-- The six header/footer free-text fields of `StyleSettings`
(src/lib/styleSettings.ts lines 29-34). -/
structure HeaderFooterSlots where
  headerLeft : String
  headerCenter : String
  headerRight : String
  footerLeft : String
  footerCenter : String
  footerRight : String

/-- The header/footer entries of the record returned by
`stylesToCSSVars`, in source order. -/
def stylesToCSSVarsHF (s : HeaderFooterSlots) : List (String × String) :=
  [ ("--md-header-left", cssVarSlot s.headerLeft),
    ("--md-header-center", cssVarSlot s.headerCenter),
    ("--md-header-right", cssVarSlot s.headerRight),
    ("--md-footer-left", cssVarSlot s.footerLeft),
    ("--md-footer-center", cssVarSlot s.footerCenter),
    ("--md-footer-right", cssVarSlot s.footerRight) ]

/-- The six interpolated header/footer constants computed at the top of
`printPdf`, in source order. -/
def printPdfHF (s : HeaderFooterSlots) : List String :=
  [ printPdfSlot s.headerLeft, printPdfSlot s.headerCenter,
    printPdfSlot s.headerRight, printPdfSlot s.footerLeft,
    printPdfSlot s.footerCenter, printPdfSlot s.footerRight ]

/-! ## Structural parser entry point

Source: `parseMarkdown` in src/lib/markdownParser.ts lines 24-55.  The
unified chain runs inside `try`; the `catch` returns a styled error `div`.
The chain itself (unified/remark/rehype) is an external library, so it is
a parameter: `Except.error m` stands for the chain throwing an exception
whose `.message` is `m`. -/

/-- The error block built by the `catch` branch of `parseMarkdown`
(src/lib/markdownParser.ts lines 50-53), character for character. -/
def errorFragment (m : String) : String :=
  "<div style=\"color: red; border: 1px solid red; padding: 1rem;\">\n      <strong>Processing Error:</strong> "
    ++ m ++ "\n    </div>"

/-- `parseMarkdown` from src/lib/markdownParser.ts lines 24-55.  The
result is the promise outcome: `Except.ok` a resolved HTML string,
`Except.error` a rejection.  Empty input returns `""` before the chain
runs; a chain failure is caught and mapped to `errorFragment`. -/
def parseMarkdown (chain : String → Except String String) (content : String) :
    Except String String :=
  match (if content = "" then Except.ok "" else chain content) with
  | Except.ok v => Except.ok v
  | Except.error m => Except.ok (errorFragment m)

/-! ## Worker message handler

Source: src/workers/markdown.worker.ts lines 22-36. -/

/-- A structured-clone payload received by the worker: either a string or
some non-string value. -/
inductive JSData where
  | str (s : String)
  | nonString
deriving DecidableEq

/-- A message posted back by the worker. -/
inductive WorkerResponse where
  | success (html : String)
  | failure (message : String)
deriving DecidableEq

/-- The worker `onmessage` handler (src/workers/markdown.worker.ts lines
22-36): non-string payloads return before posting anything; string
payloads post success with the parsed HTML, or failure with the error
message if the awaited parse rejects.  `none` means no message is
posted. -/
def workerOnMessage (parse : String → Except String String) (d : JSData) :
    Option WorkerResponse :=
  match d with
  | JSData.nonString => none
  | JSData.str content =>
    match parse content with
    | Except.ok html => some (WorkerResponse.success html)
    | Except.error m => some (WorkerResponse.failure m)

/-! ## Mermaid diagram pass

Source: `renderMermaidDiagrams` in src/lib/markdownEngine.ts lines
249-273.  The container's `code.language-mermaid` blocks sitting directly
under a `<pre>` are modelled as nodes; `mermaid.render` is a parameter
returning the SVG or throwing. -/

/-- A node of the rendered document relevant to the mermaid pass. -/
inductive MNode where
  | mermaidPre (source : String)
  | rendered (svg : String)
  | other (html : String)
deriving DecidableEq

/-- One iteration of the loop in `renderMermaidDiagrams` on a
`code.language-mermaid` block under a `<pre>` parent: blank sources are
skipped, successful renders replace the `<pre>` with a
`div.mermaid-diagram` wrapper holding the SVG, and a throwing render is
caught, logged, and the code block left as-is (source comment: "Leave the
code block as-is on failure"). -/
def renderMermaidStep (render : String → Except String String) (n : MNode) :
    MNode :=
  match n with
  | MNode.mermaidPre src =>
    if jsTrim src = "" then n
    else
      match render (jsTrim src) with
      | Except.ok svg => MNode.rendered svg
      | Except.error _ => n
  | x => x

/-- `renderMermaidDiagrams` over the block list of a container. -/
def renderMermaidDiagrams (render : String → Except String String)
    (nodes : List MNode) : List MNode :=
  nodes.map (renderMermaidStep render)

/-! ## Sanitizer: protect / purify / restore

Source: `sanitizeHtml` in src/lib/markdownEngine.ts lines 66-97.

Step 1 extracts blocks matching

  /<pre><code class="language-(mermaid|math[^"]*)">([\s\S]*?)<\/code><\/pre>/g

replacing each with `<div data-protected="__PROTECTED_BLOCK_n__"></div>`
and recording the verbatim reconstruction in a map.  Step 2 runs DOMPurify
with the `ADD_TAGS` / `ADD_ATTR` extension.  Step 3 replaces each
placeholder div by its original, via JavaScript `String.replace` with a
string pattern — which substitutes only the first occurrence and applies
`$`-pattern expansion to the replacement text. -/

/-- Literal opening frame of the protected-block pattern. -/
def openLit : List Char := "<pre><code class=\"language-".data

/-- Literal closing frame of the protected-block pattern. -/
def closeLit : List Char := "</code></pre>".data

/-- Match the group `(mermaid|math[^"]*)` followed by the literal `">`.
Returns the captured language and the rest of the input.  The alternation
tries `mermaid` first; `math[^"]*` runs to the first quote. -/
def matchLang (l : List Char) : Option (List Char × List Char) :=
  if "mermaid\">".data.isPrefixOf l then some ("mermaid".data, l.drop 9)
  else if "math".data.isPrefixOf l then
    let ext := (l.drop 4).takeWhile (fun c => c ≠ '"')
    match (l.drop 4).dropWhile (fun c => c ≠ '"') with
    | '"' :: '>' :: rest => some ("math".data ++ ext, rest)
    | _ => none
  else none

/-- Split a list at the first occurrence of `pat`: returns the part before
the occurrence and the part after it.  This is both the lazy
`([\s\S]*?)` scan of the protect regex and the search performed by
JavaScript `String.replace` with a string pattern. -/
def splitAtFirst (pat : List Char) : List Char → Option (List Char × List Char)
  | [] => if pat = [] then some ([], []) else none
  | c :: r =>
    if pat.isPrefixOf (c :: r) then some ([], (c :: r).drop pat.length)
    else
      match splitAtFirst pat r with
      | some (pre, post) => some (c :: pre, post)
      | none => none

/-- Try the protected-block regex anchored at the head of the input:
the opening frame, the language group, then the lazy content scan up to
the first closing frame.  Returns (language, content, rest). -/
def matchBlockAt (l : List Char) : Option (List Char × List Char × List Char) :=
  if openLit.isPrefixOf l then
    match matchLang (l.drop openLit.length) with
    | some (lang, l2) =>
      match splitAtFirst closeLit l2 with
      | some (content, rest) => some (lang, content, rest)
      | none => none
    | none => none
  else none

/-- No position within the prefix `p` (with continuation `k`) starts a
protected-block match. -/
def noBlockPre : List Char → List Char → Prop
  | [], _ => True
  | x :: r, k => matchBlockAt ((x :: r) ++ k) = none ∧ noBlockPre r k

/-- The generated placeholder key `__PROTECTED_BLOCK_n__`. -/
def placeholderFor (n : Nat) : String := "__PROTECTED_BLOCK_" ++ toString n ++ "__"

/-- The placeholder element inserted in place of a protected block. -/
def placeholderDiv (id : String) : String :=
  "<div data-protected=\"" ++ id ++ "\"></div>"

/-- The verbatim reconstruction stored in the map:
`<pre><code class="language-LANG">CONTENT</code></pre>`. -/
def blockHtml (lang content : List Char) : String :=
  ⟨openLit ++ lang ++ '"' :: '>' :: content ++ closeLit⟩

/-- The global protect scan (step 1 of `sanitizeHtml`): at each position
try the block pattern; on a match emit the placeholder div, record the map
entry, and continue after the match with the counter incremented;
otherwise emit one character.  Total via fuel; called with fuel at least
the length of the list. -/
def protectGo : Nat → List Char → Nat → List Char × List (String × String)
  | fuel + 1, l, n =>
    (match matchBlockAt l with
     | some (lang, content, rest) =>
       let id := placeholderFor n
       let out := protectGo fuel rest (n + 1)
       ((placeholderDiv id).data ++ out.1, (id, blockHtml lang content) :: out.2)
     | none =>
       match l with
       | [] => ([], [])
       | c :: r =>
         let out := protectGo fuel r n
         (c :: out.1, out.2))
  | 0, l, _ => (l, [])

/-- Step 1 of `sanitizeHtml`: the protected input and the placeholder map
(in insertion order, as a JavaScript `Map` iterates). -/
def protect (rawHtml : String) : String × List (String × String) :=
  let out := protectGo rawHtml.data.length rawHtml.data 0
  (⟨out.1⟩, out.2)

/-- JavaScript replacement-pattern expansion for `String.replace` with a
string pattern: `$$` inserts `$`, `$&` the matched substring, a dollar
followed by a backquote the part before the match, `$'` the part after
the match; any other `$` is literal.  Total via fuel; called with fuel at
least the length of the replacement. -/
def expandRepl (matched before after : List Char) : Nat → List Char → List Char
  | fuel + 1, c :: r =>
    if c = '$' then
      match r with
      | [] => ['$']
      | c2 :: r2 =>
        if c2 = '$' then '$' :: expandRepl matched before after fuel r2
        else if c2 = '&' then matched ++ expandRepl matched before after fuel r2
        else if c2 = Char.ofNat 96 then before ++ expandRepl matched before after fuel r2
        else if c2 = '\'' then after ++ expandRepl matched before after fuel r2
        else '$' :: expandRepl matched before after fuel (c2 :: r2)
    else c :: expandRepl matched before after fuel r
  | _ + 1, [] => []
  | 0, l => l

/-- JavaScript `s.replace(pat, repl)` with string arguments: replace the
first occurrence of `pat`, applying `$`-pattern expansion to `repl`; if
`pat` does not occur, return `s` unchanged. -/
def replaceFirst (s pat repl : String) : String :=
  match splitAtFirst pat.data s.data with
  | some (before, after) =>
    ⟨before ++ expandRepl pat.data before after repl.data.length repl.data ++ after⟩
  | none => s

/-- Step 3 of `sanitizeHtml`: restore each map entry in insertion order by
replacing its placeholder div in the sanitized output. -/
def restore (clean : String) (phs : List (String × String)) : String :=
  phs.foldl (fun acc p => replaceFirst acc (placeholderDiv p.1) p.2) clean

/-! ## A model of the underlying sanitation pass

Modelled from the spec: DOMPurify itself is an external dependency (not in
this repository); §4.3 of the spec describes it as a deny-by-default
sanitation pass over the HTML token stream, extended additively with the
source's `ADD_TAGS` / `ADD_ATTR` allow-list.  The model tokenizes the
input, drops every element whose (lower-cased) tag name is not
allow-listed, drops every attribute whose name is not allow-listed, strips
markup-significant characters from attribute values, and re-serializes.
Theorems about `sanitizeHtml` take the pass as a parameter where possible
and use this model for concrete evaluation. -/

/-- A raw token of the HTML input: a run of text, or the characters
between `<` and `>`. -/
inductive RawTok where
  | text (s : List Char)
  | tag (inner : List Char)
deriving DecidableEq

/-- Tokenize: split the input at tag boundaries.  Total via fuel; called
with fuel at least the length of the list. -/
def tokenizeGo : Nat → List Char → List RawTok
  | fuel + 1, l =>
    match l with
    | [] => []
    | '<' :: r =>
      RawTok.tag (r.takeWhile (fun c => c ≠ '>')) ::
        tokenizeGo fuel ((r.dropWhile (fun c => c ≠ '>')).drop 1)
    | c :: r =>
      RawTok.text ((c :: r).takeWhile (fun ch => ch ≠ '<')) ::
        tokenizeGo fuel ((c :: r).dropWhile (fun ch => ch ≠ '<'))
  | 0, _ => []

/-- Characters that terminate a tag or attribute name. -/
def nameEnd (c : Char) : Bool := c = ' ' ∨ c = '\t' ∨ c = '\n' ∨ c = '/' ∨ c = '='

/-- One parsed attribute: name and optional value. -/
structure HAttr where
  name : List Char
  value : Option (List Char)
deriving DecidableEq

/-- Parse the attribute list after a tag name.  Total via fuel; called
with fuel at least the length of the list. -/
def parseAttrs : Nat → List Char → List HAttr
  | fuel + 1, l =>
    let l1 := l.dropWhile (fun c => c = ' ' ∨ c = '\t' ∨ c = '\n' ∨ c = '/')
    let nm := l1.takeWhile (fun c => ¬ nameEnd c)
    if nm = [] then []
    else
      match l1.dropWhile (fun c => ¬ nameEnd c) with
      | '=' :: '"' :: r =>
        ⟨nm, some (r.takeWhile (fun c => c ≠ '"'))⟩ ::
          parseAttrs fuel ((r.dropWhile (fun c => c ≠ '"')).drop 1)
      | '=' :: r =>
        ⟨nm, some (r.takeWhile (fun c => ¬ nameEnd c))⟩ ::
          parseAttrs fuel (r.dropWhile (fun c => ¬ nameEnd c))
      | l2 => ⟨nm, none⟩ :: parseAttrs fuel l2
  | 0, _ => []

/-- Parse a raw tag body into (is-closing, lower-cased name, attributes). -/
def parseTagData (inner : List Char) : Bool × List Char × List HAttr :=
  match inner with
  | '/' :: r => (true, (r.takeWhile (fun c => ¬ nameEnd c)).map jsLowerChar, [])
  | _ =>
    let nm := inner.takeWhile (fun c => ¬ nameEnd c)
    let rest := inner.dropWhile (fun c => ¬ nameEnd c)
    (false, nm.map jsLowerChar, parseAttrs rest.length rest)

/-- `KATEX_TAGS` from src/lib/markdownEngine.ts lines 6-19: the tags the
source adds to the sanitizer's allow-list. -/
def KATEX_TAGS : List String :=
  [ "math", "annotation", "semantics",
    "mrow", "mi", "mo", "mn", "msup", "msub", "msubsup",
    "mfrac", "munder", "mover", "munderover", "msqrt", "mroot",
    "mtable", "mtr", "mtd", "mtext", "mspace", "mpadded",
    "menclose", "mglyph", "mmultiscripts", "mprescripts", "none",
    "span", "mark",
    "u", "sub", "sup", "font", "br",
    "div", "p",
    "section" ]

/-- `ALLOWED_ATTR` from src/lib/markdownEngine.ts lines 20-32: the
attributes the source adds to the sanitizer's allow-list. -/
def ALLOWED_ATTR : List String :=
  [ "encoding", "xmlns", "mathvariant", "stretchy", "fence", "separator",
    "accent", "lspace", "rspace", "depth", "height", "width",
    "columnalign", "rowalign", "columnspacing", "rowspacing",
    "displaystyle", "scriptlevel", "minsize", "maxsize", "movablelimits",
    "columnlines", "rowlines", "frame", "framespacing",
    "equalrows", "equalcolumns", "side",
    "style", "class", "id", "aria-hidden",
    "data-callout", "data-callout-type", "data-protected",
    "color", "size", "face" ]

/-- Modelled from the spec: a representative slice of the deny-by-default
base sanitizer's own allow-list (standard structural and formatting HTML;
DOMPurify's defaults are not part of this repository). -/
def baseTags : List String :=
  [ "a", "b", "blockquote", "code", "del", "details", "em",
    "h1", "h2", "h3", "h4", "h5", "h6", "hr", "i", "img", "input",
    "li", "ol", "pre", "strong", "summary",
    "table", "tbody", "td", "th", "thead", "tr", "ul" ]

/-- Modelled from the spec: a representative slice of the base
sanitizer's default attribute allow-list. -/
def baseAttrs : List String :=
  [ "href", "src", "alt", "title", "type", "checked", "disabled" ]

/-- The sanitation pass's effective tag allow-list: base plus `ADD_TAGS`. -/
def allowedTags : List String := baseTags ++ KATEX_TAGS

/-- The sanitation pass's effective attribute allow-list: base plus
`ADD_ATTR`. -/
def allowedAttrs : List String := baseAttrs ++ ALLOWED_ATTR

/-- A sanitized output token: text, an allow-listed opening tag with
filtered attributes, or an allow-listed closing tag. -/
inductive OutTok where
  | text (s : List Char)
  | openTag (name : List Char) (attrs : List (List Char × Option (List Char)))
  | closeTag (name : List Char)
deriving DecidableEq

/-- Strip markup-significant characters from an attribute value. -/
def cleanVal (v : List Char) : List Char :=
  v.filter (fun c => c ≠ '<' ∧ c ≠ '>' ∧ c ≠ '"')

/-- Filter one raw token: drop tags whose name is not allow-listed, drop
attributes whose name is not allow-listed, clean kept values. -/
def purifyTok (t : RawTok) : Option OutTok :=
  match t with
  | RawTok.text s => some (OutTok.text s)
  | RawTok.tag inner =>
    let td := parseTagData inner
    if (⟨td.2.1⟩ : String) ∈ allowedTags then
      if td.1 then some (OutTok.closeTag td.2.1)
      else
        some (OutTok.openTag td.2.1
          ((td.2.2.filter
              (fun a => decide ((⟨a.name.map jsLowerChar⟩ : String) ∈ allowedAttrs))).map
            (fun a => (a.name.map jsLowerChar, a.value.map cleanVal))))
    else none

/-- Serialize one attribute. -/
def serializeAttr (a : List Char × Option (List Char)) : List Char :=
  ' ' :: a.1 ++
    (match a.2 with
     | some v => '=' :: '"' :: v ++ ['"']
     | none => [])

/-- Serialize one sanitized token. -/
def serializeTok : OutTok → List Char
  | OutTok.text s => s
  | OutTok.openTag nm attrs => '<' :: (nm ++ (attrs.map serializeAttr).flatten ++ ['>'])
  | OutTok.closeTag nm => '<' :: '/' :: (nm ++ ['>'])

/-- The sanitized token stream of an input string. -/
def purifyTokens (s : String) : List OutTok :=
  (tokenizeGo s.data.length s.data).filterMap purifyTok

/-- The modelled sanitation pass: tokenize, filter, re-serialize. -/
def modelPurify (s : String) : String :=
  ⟨((purifyTokens s).map serializeTok).flatten⟩

/-- `sanitizeHtml` from src/lib/markdownEngine.ts lines 66-97.
`hasWindow` models the `typeof window === 'undefined'` environment probe
(line 67: without a window the function is a passthrough); `purify` is the
underlying sanitation pass (DOMPurify with the source's allow-list
extension). -/
def sanitizeHtml (hasWindow : Bool) (purify : String → String)
    (rawHtml : String) : String :=
  if hasWindow = false then rawHtml
  else
    let p := protect rawHtml
    restore (purify p.1) p.2

/-! ## Safety observables of the sanitized output -/

/-- A sanitized token is allow-list clean: every tag name is in the tag
allow-list and every attribute name is in the attribute allow-list. -/
def outTokOk : OutTok → Bool
  | OutTok.text _ => true
  | OutTok.openTag nm attrs =>
    decide ((⟨nm⟩ : String) ∈ allowedTags) &&
      attrs.all (fun a => decide ((⟨a.1⟩ : String) ∈ allowedAttrs))
  | OutTok.closeTag nm => decide ((⟨nm⟩ : String) ∈ allowedTags)

/-- Automaton step recognising the character sequence `<sc` (the only way
a `<script` tag opener can begin).  States: 0 nothing, 1 saw `<`, 2 saw
`<s`, 3 matched (absorbing). -/
def ltScStep (st : Nat) (c : Char) : Nat :=
  if st = 3 then 3
  else if c = '<' then 1
  else if st = 1 ∧ c = 's' then 2
  else if st = 2 ∧ c = 'c' then 3
  else 0

/-- The string contains the character sequence `<sc` (in particular, any
`<script` occurrence). -/
def hasLtSc (s : String) : Bool := s.data.foldl ltScStep 0 = 3

/-- Serialization-safety of one sanitized token, sufficient for the `<sc`
scan: no `<` inside text, names, or values, and the tag name neither
empty nor starting with `sc`. -/
def serialSafeTok : OutTok → Bool
  | OutTok.text s => s.all (fun c => c ≠ '<')
  | OutTok.openTag nm attrs =>
    nm ≠ [] && nm.all (fun c => c ≠ '<') && nm.take 2 ≠ ['s', 'c'] &&
      attrs.all (fun a =>
        a.1.all (fun c => c ≠ '<') &&
          (match a.2 with
           | some v => v.all (fun c => c ≠ '<')
           | none => true))
  | OutTok.closeTag nm => nm.all (fun c => c ≠ '<')


/-! ## Supporting lemmas -/

/-- Quote-expansion is the identity on quote-free character lists. -/
theorem escapeQuotes_data (l : List Char) (h : '"' ∉ l) :
    (l.map fun c => if c = '"' then ['\\', '"'] else [c]).flatten = l := by
  induction l with
  | nil => rfl
  | cons c r ih =>
    simp only [List.mem_cons, not_or] at h
    simp [if_neg (fun hc : c = '"' => h.1 hc.symm), ih h.2]

/-- Quote-escaping is the identity on quote-free strings. -/
theorem escapeQuotes_eq_self (v : String) (h : '"' ∉ v.data) :
    escapeQuotes v = v :=
  String.ext (escapeQuotes_data v.data h)

/-- A list headed by a non-`=` character does not open with `==`. -/
theorem take2_ne_of_ne (c : Char) (t : List Char) (hc : c ≠ '=') :
    (c :: t).take 2 ≠ ['=', '='] := by
  cases t <;> simp [hc]

/-- A list headed by `=` then a non-`=` character does not open with
`==`. -/
theorem take2_eq_ne (c2 : Char) (t : List Char) (hc2 : c2 ≠ '=') :
    ('=' :: c2 :: t).take 2 ≠ ['=', '='] := by
  simp [hc2]

/-- The lazy loop closes on a leading `==`. -/
theorem hlLoop_close (fuel : Nat) (acc r : List Char) :
    hlLoop fuel acc ('=' :: '=' :: r) = some (acc.reverse, r) := by
  cases fuel <;> rfl

/-- One step of the lazy loop on a non-`=` head: consume it as an atom. -/
theorem hlLoop_cons_ne (f : Nat) (acc : List Char) (c : Char) (t : List Char)
    (hc : c ≠ '=') :
    hlLoop (f + 1) acc (c :: t) = hlLoop f (c :: acc) t := by
  rw [hlLoop, if_neg (take2_ne_of_ne c t hc)]
  simp [hlAtom, hc]

/-- One step of the lazy loop on `=` followed by a non-`=`: consume both
as one atom. -/
theorem hlLoop_cons_eq (f : Nat) (acc : List Char) (c2 : Char) (t : List Char)
    (hc2 : c2 ≠ '=') :
    hlLoop (f + 1) acc ('=' :: c2 :: t) = hlLoop f (c2 :: '=' :: acc) t := by
  rw [hlLoop, if_neg (take2_eq_ne c2 t hc2)]
  simp [hlAtom, hc2]

/-- The lazy loop consumes a well-formed content list entirely, then
closes on the following `==`. -/
theorem hlLoop_consume (n : Nat) :
    ∀ a : List Char, a.length ≤ n → okTail a = true →
      ∀ (fuel : Nat) (acc r : List Char), a.length ≤ fuel →
        hlLoop fuel acc (a ++ '=' :: '=' :: r) = some (acc.reverse ++ a, r) := by
  induction n with
  | zero =>
    intro a ha _ fuel acc r _
    have : a = [] := List.length_eq_zero.mp (Nat.le_zero.mp ha)
    subst this
    simp [hlLoop_close]
  | succ n ih =>
    intro a ha hok fuel acc r hfuel
    match a, hok with
    | [], _ => simp [hlLoop_close]
    | c :: a', hok =>
      by_cases hc : c = '='
      · subst hc
        match a', hok with
        | [], hok => exact absurd hok (by decide)
        | c2 :: a'', hok =>
          by_cases hc2 : c2 = '='
          · subst hc2
            exact absurd hok (by simp [okTail])
          · obtain ⟨f, rfl⟩ : ∃ f, fuel = f + 1 := ⟨fuel - 1, by
              simp only [List.length_cons] at hfuel; omega⟩
            have hok'' : okTail a'' = true := by
              have h1 : okTail ('=' :: c2 :: a'') = okTail (c2 :: a'') := by
                simp [okTail, hc2]
              have h2 : okTail (c2 :: a'') = okTail a'' := by
                simp [okTail, hc2]
              rw [h1, h2] at hok
              exact hok
            rw [show ('=' :: c2 :: a'') ++ '=' :: '=' :: r =
                  '=' :: c2 :: (a'' ++ '=' :: '=' :: r) by simp]
            rw [hlLoop_cons_eq f acc c2 _ hc2]
            rw [ih a'' (by simp only [List.length_cons] at ha; omega) hok'' f
                (c2 :: '=' :: acc) r
                (by simp only [List.length_cons] at hfuel; omega)]
            simp
      · obtain ⟨f, rfl⟩ : ∃ f, fuel = f + 1 := ⟨fuel - 1, by
          simp only [List.length_cons] at hfuel; omega⟩
        have hok' : okTail a' = true := by
          have h2 : okTail (c :: a') = okTail a' := by
            simp [okTail, hc]
          rw [h2] at hok
          exact hok
        rw [show (c :: a') ++ '=' :: '=' :: r = c :: (a' ++ '=' :: '=' :: r) by simp]
        rw [hlLoop_cons_ne f acc c _ hc]
        rw [ih a' (by simp only [List.length_cons] at ha; omega) hok' f (c :: acc) r
            (by simp only [List.length_cons] at hfuel; omega)]
        simp

/-- The highlight body scan captures a well-formed content list whole and
stops at the following `==`. -/
theorem hlStart_full (a : List Char) (hne : a ≠ []) (hok : okTail a = true)
    (r : List Char) :
    hlStart (a ++ '=' :: '=' :: r) = some (a, r) := by
  match a, hne with
  | c :: a', _ =>
    by_cases hc : c = '='
    · subst hc
      match a', hok with
      | [], hok => exact absurd hok (by decide)
      | c2 :: a'', hok =>
        by_cases hc2 : c2 = '='
        · subst hc2
          exact absurd hok (by simp [okTail])
        · have hok'' : okTail a'' = true := by
            have h1 : okTail ('=' :: c2 :: a'') = okTail (c2 :: a'') := by
              simp [okTail, hc2]
            have h2 : okTail (c2 :: a'') = okTail a'' := by
              simp [okTail, hc2]
            rw [h1, h2] at hok
            exact hok
          rw [show ('=' :: c2 :: a'') ++ '=' :: '=' :: r =
                '=' :: c2 :: (a'' ++ '=' :: '=' :: r) by simp]
          have hcons := hlLoop_consume a''.length a'' le_rfl hok''
            (a'' ++ '=' :: '=' :: r).length [c2, '='] r
            (by simp [List.length_append])
          unfold hlStart
          rw [show hlAtom ('=' :: c2 :: (a'' ++ '=' :: '=' :: r)) =
                some (['=', c2], a'' ++ '=' :: '=' :: r) from by simp [hlAtom, hc2]]
          show hlLoop (a'' ++ '=' :: '=' :: r).length (['=', c2] : List Char).reverse
              (a'' ++ '=' :: '=' :: r) = some ('=' :: c2 :: a'', r)
          rw [show (['=', c2] : List Char).reverse = [c2, '='] from by simp]
          rw [hcons]
          simp
    · have hok' : okTail a' = true := by
        have h2 : okTail (c :: a') = okTail a' := by simp [okTail, hc]
        rw [h2] at hok
        exact hok
      rw [show (c :: a') ++ '=' :: '=' :: r = c :: (a' ++ '=' :: '=' :: r) by simp]
      have hcons := hlLoop_consume a'.length a' le_rfl hok'
        (a' ++ '=' :: '=' :: r).length [c] r (by simp [List.length_append])
      unfold hlStart
      rw [show hlAtom (c :: (a' ++ '=' :: '=' :: r)) =
            some ([c], a' ++ '=' :: '=' :: r) from by simp [hlAtom, hc]]
      show hlLoop (a' ++ '=' :: '=' :: r).length ([c] : List Char).reverse
          (a' ++ '=' :: '=' :: r) = some (c :: a', r)
      rw [show ([c] : List Char).reverse = [c] from by simp]
      rw [hcons]
      simp

/-- Unfolding of `preprocessGo` at positive fuel. -/
theorem preprocessGo_succ (f : Nat) (l : List Char) :
    preprocessGo (f + 1) l =
      (if l.take 2 = ['=', '='] then
        match hlStart (l.drop 2) with
        | some (content, rest) =>
          ("<mark>".data ++ content ++ "</mark>".data) ++ preprocessGo f rest
        | none =>
          match l with
          | c :: r => c :: preprocessGo f r
          | [] => []
      else
        match l with
        | c :: r => c :: preprocessGo f r
        | [] => []) := rfl

/-- Unfolding of `hasHlGo` at positive fuel. -/
theorem hasHlGo_succ (f : Nat) (l : List Char) :
    hasHlGo (f + 1) l =
      (if l.take 2 = ['=', '='] then
        match hlStart (l.drop 2) with
        | some _ => true
        | none =>
          match l with
          | _ :: r => hasHlGo f r
          | [] => false
      else
        match l with
        | _ :: r => hasHlGo f r
        | [] => false) := rfl

/-- The replace pass is the identity when the pattern matches nowhere. -/
theorem preprocessGo_noMatch :
    ∀ (fuel : Nat) (l : List Char), hasHlGo fuel l = false →
      preprocessGo fuel l = l := by
  intro fuel
  induction fuel with
  | zero => intro l _; rfl
  | succ f ih =>
    intro l h
    match l with
    | [] => rfl
    | c :: r =>
      rw [preprocessGo_succ]
      rw [hasHlGo_succ] at h
      by_cases hcl : (c :: r).take 2 = ['=', '=']
      · rw [if_pos hcl] at h ⊢
        cases hs : hlStart ((c :: r).drop 2) with
        | some v =>
          rw [hs] at h
          exact absurd (show (true : Bool) = false from h) (by simp)
        | none =>
          rw [hs] at h
          have h2 : hasHlGo f r = false := h
          show c :: preprocessGo f r = c :: r
          rw [ih r h2]
      · rw [if_neg hcl] at h ⊢
        have h2 : hasHlGo f r = false := h
        show c :: preprocessGo f r = c :: r
        rw [ih r h2]

/-- The replace pass on a single well-formed pair rewrites it whole. -/
theorem preprocessGo_single (a : List Char) (hne : a ≠ [])
    (hok : okTail a = true) (f : Nat) :
    preprocessGo (f + 1) ('=' :: '=' :: (a ++ ['=', '='])) =
      "<mark>".data ++ a ++ "</mark>".data := by
  rw [preprocessGo_succ, if_pos (by rfl)]
  rw [show ('=' :: '=' :: (a ++ ['=', '='])).drop 2 = a ++ '=' :: '=' :: [] from rfl]
  rw [hlStart_full a hne hok []]
  cases f <;> simp [preprocessGo]

/-! ## Sanitizer lemmas -/

/-- Unfolding of `protectGo` at positive fuel. -/
theorem protectGo_succ (f : Nat) (l : List Char) (n : Nat) :
    protectGo (f + 1) l n =
      (match matchBlockAt l with
       | some (lang, content, rest) =>
         ((placeholderDiv (placeholderFor n)).data ++ (protectGo f rest (n + 1)).1,
           (placeholderFor n, blockHtml lang content) :: (protectGo f rest (n + 1)).2)
       | none =>
         match l with
         | [] => ([], [])
         | c :: r => (c :: (protectGo f r n).1, (protectGo f r n).2)) := rfl

/-- If the protect scan records no map entry, it emits the input
unchanged. -/
theorem protectGo_noMatch :
    ∀ (fuel : Nat) (l : List Char) (n : Nat), (protectGo fuel l n).2 = [] →
      (protectGo fuel l n).1 = l := by
  intro fuel
  induction fuel with
  | zero => intro l n _; rfl
  | succ f ih =>
    intro l n h2
    rw [protectGo_succ] at h2 ⊢
    cases hm : matchBlockAt l with
    | some v =>
      obtain ⟨lang, content, rest⟩ := v
      rw [hm] at h2
      simp at h2
    | none =>
      match l with
      | [] => rfl
      | c :: r =>
        rw [hm] at h2
        have h3 : (protectGo f r n).2 = [] := h2
        show c :: (protectGo f r n).1 = c :: r
        rw [ih r n h3]

/-- The protect scan of the empty list. -/
theorem protectGo_nil (fuel n : Nat) : protectGo fuel [] n = ([], []) := by
  cases fuel with
  | zero => rfl
  | succ f => rfl

/-- A list is a prefix of itself followed by anything. -/
theorem isPrefixOf_append_self : ∀ (l t : List Char), l.isPrefixOf (l ++ t) = true := by
  intro l t
  induction l with
  | nil => cases t <;> rfl
  | cons c r ih => simp [List.isPrefixOf, ih]

/-- Splitting at the first occurrence of a pattern that sits at the very
front. -/
theorem splitAtFirst_self (pat t : List Char) (hne : pat ≠ []) :
    splitAtFirst pat (pat ++ t) = some ([], t) := by
  match pat, hne with
  | p0 :: pr, _ =>
    show splitAtFirst (p0 :: pr) (p0 :: (pr ++ t)) = some ([], t)
    rw [splitAtFirst]
    rw [if_pos (show (p0 :: pr).isPrefixOf (p0 :: (pr ++ t)) = true from
      isPrefixOf_append_self (p0 :: pr) t)]
    simp [List.drop_left]

/-- Splitting after a pattern-free chunk: the first occurrence of
`closeLit` after content containing no `<` is the explicit one. -/
theorem splitAtFirst_frame (c t : List Char) (hc : ∀ ch ∈ c, ch ≠ '<') :
    splitAtFirst closeLit (c ++ (closeLit ++ t)) = some (c, t) := by
  induction c with
  | nil =>
    simpa using splitAtFirst_self closeLit t (by decide)
  | cons ch c' ih =>
    show splitAtFirst closeLit (ch :: (c' ++ (closeLit ++ t))) = some (ch :: c', t)
    rw [splitAtFirst]
    rw [if_neg (by
      have hch := hc ch (by simp)
      simp [closeLit, List.isPrefixOf, Ne.symm hch])]
    rw [ih (fun x hx => hc x (by simp [hx]))]

/-- The protect scan walks over a match-free prefix unchanged. -/
theorem protectGo_skip :
    ∀ (p k : List Char) (n fuel : Nat), p.length ≤ fuel → noBlockPre p k →
      protectGo fuel (p ++ k) n =
        (p ++ (protectGo (fuel - p.length) k n).1,
          (protectGo (fuel - p.length) k n).2) := by
  intro p
  induction p with
  | nil =>
    intro k n fuel _ _
    simp
  | cons x p' ih =>
    intro k n fuel hlen hnb
    obtain ⟨f, rfl⟩ : ∃ f, fuel = f + 1 :=
      ⟨fuel - 1, by simp at hlen; omega⟩
    rw [protectGo_succ]
    rw [hnb.1]
    show (x :: (protectGo f (p' ++ k) n).1, (protectGo f (p' ++ k) n).2) = _
    rw [ih k n f (by simp at hlen; omega) hnb.2]
    simp [Nat.succ_sub_succ]

/-- The protect scan leaves a wholly match-free list unchanged with an
empty map. -/
theorem protectGo_only (p : List Char) (n fuel : Nat) (hlen : p.length ≤ fuel)
    (hnb : noBlockPre p []) : protectGo fuel p n = (p, []) := by
  conv_lhs => rw [show p = p ++ [] from (List.append_nil p).symm]
  rw [protectGo_skip p [] n fuel (by simpa using hlen) hnb]
  rw [protectGo_nil]
  simp

/-- Replacement-pattern expansion is the identity on dollar-free text. -/
theorem expandRepl_id (m b a : List Char) :
    ∀ (fuel : Nat) (l : List Char), (∀ ch ∈ l, ch ≠ '$') →
      expandRepl m b a fuel l = l := by
  intro fuel
  induction fuel with
  | zero => intro l _; rfl
  | succ f ih =>
    intro l hl
    match l with
    | [] => rfl
    | c :: r =>
      have hc : c ≠ '$' := hl c (by simp)
      rw [show expandRepl m b a (f + 1) (c :: r) = c :: expandRepl m b a f r from by
        simp [expandRepl, hc]]
      rw [ih r (fun x hx => hl x (by simp [hx]))]

/-- Unfolding of `tokenizeGo` at positive fuel. -/
theorem tokenizeGo_succ (f : Nat) (l : List Char) :
    tokenizeGo (f + 1) l =
      (match l with
       | [] => []
       | '<' :: r =>
         RawTok.tag (r.takeWhile (fun c => c ≠ '>')) ::
           tokenizeGo f ((r.dropWhile (fun c => c ≠ '>')).drop 1)
       | c :: r =>
         RawTok.text ((c :: r).takeWhile (fun ch => ch ≠ '<')) ::
           tokenizeGo f ((c :: r).dropWhile (fun ch => ch ≠ '<'))) := rfl

/-- Text tokens produced by the tokenizer contain no `<`. -/
theorem tokenizeGo_text_safe :
    ∀ (fuel : Nat) (l s : List Char), RawTok.text s ∈ tokenizeGo fuel l →
      ∀ c ∈ s, c ≠ '<' := by
  intro fuel
  induction fuel with
  | zero => intro l s h; exact absurd h (by simp [tokenizeGo])
  | succ f ih =>
    intro l s h
    rw [tokenizeGo_succ] at h
    match l with
    | [] => exact absurd h (by simp)
    | c :: r =>
      by_cases hc : c = '<'
      · subst hc
        simp only [List.mem_cons] at h
        rcases h with h | h
        · exact absurd h (by simp)
        · exact ih _ s h
      · have hred :
            (match c :: r with
             | [] => ([] : List RawTok)
             | '<' :: r =>
               RawTok.tag (r.takeWhile (fun c => c ≠ '>')) ::
                 tokenizeGo f ((r.dropWhile (fun c => c ≠ '>')).drop 1)
             | c :: r =>
               RawTok.text ((c :: r).takeWhile (fun ch => ch ≠ '<')) ::
                 tokenizeGo f ((c :: r).dropWhile (fun ch => ch ≠ '<'))) =
              RawTok.text ((c :: r).takeWhile (fun ch => ch ≠ '<')) ::
                tokenizeGo f ((c :: r).dropWhile (fun ch => ch ≠ '<')) := by
          simp [hc]
        rw [hred] at h
        simp only [List.mem_cons] at h
        rcases h with h | h
        · have hs : s = (c :: r).takeWhile (fun ch => ch ≠ '<') := by
            cases h; rfl
          subst hs
          intro x hx
          have := List.mem_takeWhile_imp hx
          simpa using this
        · exact ih _ s h

/-- Every token the filter keeps is allow-list clean. -/
theorem purifyTokens_ok (s : String) : ∀ t ∈ purifyTokens s, outTokOk t = true := by
  intro t ht
  rw [purifyTokens, List.mem_filterMap] at ht
  obtain ⟨raw, _, hraw⟩ := ht
  match raw with
  | RawTok.text s2 =>
    have : t = OutTok.text s2 := by
      simp [purifyTok] at hraw
      exact hraw.symm
    subst this
    rfl
  | RawTok.tag inner =>
    by_cases hmem : (⟨(parseTagData inner).2.1⟩ : String) ∈ allowedTags
    · cases hcl : (parseTagData inner).1
      · have : t = OutTok.openTag (parseTagData inner).2.1
            (((parseTagData inner).2.2.filter
                (fun a => decide ((⟨a.name.map jsLowerChar⟩ : String) ∈ allowedAttrs))).map
              (fun a => (a.name.map jsLowerChar, a.value.map cleanVal))) := by
          simp [purifyTok, hmem, hcl] at hraw
          exact hraw.symm
        subst this
        rw [outTokOk, Bool.and_eq_true]
        refine ⟨by simpa using hmem, ?_⟩
        rw [List.all_eq_true]
        intro a ha
        rw [List.mem_map] at ha
        obtain ⟨a0, ha0, rfl⟩ := ha
        have := List.of_mem_filter ha0
        simpa using this
      · have : t = OutTok.closeTag (parseTagData inner).2.1 := by
          simp [purifyTok, hmem, hcl] at hraw
          exact hraw.symm
        subst this
        rw [outTokOk]
        simpa using hmem
    · exact absurd hraw (by simp [purifyTok, hmem])

/-- Facts about the tag allow-list needed for serialization safety. -/
theorem allowedTags_safe :
    ∀ n ∈ allowedTags, n.data ≠ [] ∧ (∀ c ∈ n.data, c ≠ '<') ∧
      n.data.take 2 ≠ ['s', 'c'] ∧ n ≠ "script" := by
  decide

/-- Facts about the attribute allow-list needed for serialization safety
and the event-handler claim: no `<` in any name, and no name begins with
`on` (the HTML event-handler prefix). -/
theorem allowedAttrs_safe :
    ∀ n ∈ allowedAttrs, (∀ c ∈ n.data, c ≠ '<') ∧ n.data.take 2 ≠ ['o', 'n'] := by
  decide

/-- Every kept token is serialization-safe. -/
theorem purifyTokens_serialSafe (s : String) :
    ∀ t ∈ purifyTokens s, serialSafeTok t = true := by
  intro t ht
  have hok := purifyTokens_ok s t ht
  rw [purifyTokens, List.mem_filterMap] at ht
  obtain ⟨raw, hrawMem, hraw⟩ := ht
  match t with
  | OutTok.text s2 =>
    -- the only way to produce a text token is from a tokenizer text token
    have hsrc : raw = RawTok.text s2 := by
      match raw with
      | RawTok.text s3 =>
        simp [purifyTok] at hraw
        rw [hraw]
      | RawTok.tag inner =>
        by_cases hmem : (⟨(parseTagData inner).2.1⟩ : String) ∈ allowedTags
        · cases hcl : (parseTagData inner).1 <;>
            simp [purifyTok, hmem, hcl] at hraw
        · simp [purifyTok, hmem] at hraw
    subst hsrc
    rw [serialSafeTok, List.all_eq_true]
    intro c hcmem
    have := tokenizeGo_text_safe _ _ s2 hrawMem c hcmem
    simpa using this
  | OutTok.closeTag nm =>
    rw [outTokOk] at hok
    have hmem : (⟨nm⟩ : String) ∈ allowedTags := by simpa using hok
    have hfacts := allowedTags_safe _ hmem
    rw [serialSafeTok, List.all_eq_true]
    intro c hcmem
    simpa using hfacts.2.1 c hcmem
  | OutTok.openTag nm attrs =>
    rw [outTokOk, Bool.and_eq_true] at hok
    have hmem : (⟨nm⟩ : String) ∈ allowedTags := by simpa using hok.1
    have hfacts := allowedTags_safe _ hmem
    rw [serialSafeTok]
    simp only [Bool.and_eq_true]
    refine ⟨⟨⟨by simpa using hfacts.1, ?_⟩, by simpa using hfacts.2.2.1⟩, ?_⟩
    · rw [List.all_eq_true]
      intro c hcmem
      simpa using hfacts.2.1 c hcmem
    · rw [List.all_eq_true]
      intro a ha
      have hA := hok.2
      rw [List.all_eq_true] at hA
      have haOk := hA a ha
      have hamem : (⟨a.1⟩ : String) ∈ allowedAttrs := by simpa using haOk
      have haF := allowedAttrs_safe _ hamem
      rw [Bool.and_eq_true]
      constructor
      · rw [List.all_eq_true]
        intro c hcmem
        simpa using haF.1 c hcmem
      · -- values were produced by the filter/map pipeline; but we only
        -- know the attribute is a kept one from `hraw`.  Recover the
        -- cleanVal structure of the value.
        match raw with
        | RawTok.text s3 => simp [purifyTok] at hraw
        | RawTok.tag inner =>
          by_cases htag : (⟨(parseTagData inner).2.1⟩ : String) ∈ allowedTags
          · cases hcl : (parseTagData inner).1
            · have heq : OutTok.openTag (parseTagData inner).2.1
                  (((parseTagData inner).2.2.filter
                      (fun a =>
                        decide ((⟨a.name.map jsLowerChar⟩ : String) ∈ allowedAttrs))).map
                    (fun a => (a.name.map jsLowerChar, a.value.map cleanVal))) =
                  OutTok.openTag nm attrs := by
                simpa [purifyTok, htag, hcl] using hraw
              have hattrs : attrs =
                  ((parseTagData inner).2.2.filter
                      (fun a =>
                        decide ((⟨a.name.map jsLowerChar⟩ : String) ∈ allowedAttrs))).map
                    (fun a => (a.name.map jsLowerChar, a.value.map cleanVal)) := by
                cases heq; rfl
              rw [hattrs] at ha
              rw [List.mem_map] at ha
              obtain ⟨a0, _, rfl⟩ := ha
              cases hv : a0.value with
              | none => rfl
              | some v =>
                show (cleanVal v).all (fun c => decide (c ≠ '<')) = true
                rw [List.all_eq_true]
                intro c hcmem
                have := List.of_mem_filter hcmem
                simp only [decide_eq_true_eq] at this
                simpa using this.1
            · simp [purifyTok, htag, hcl] at hraw
          · simp [purifyTok, htag] at hraw

/-- A `<`-free list scanned from state 0 stays in state 0. -/
theorem ltscan_zero (y : List Char) (hy : ∀ c ∈ y, c ≠ '<') :
    y.foldl ltScStep 0 = 0 := by
  induction y with
  | nil => rfl
  | cons c r ih =>
    rw [List.foldl_cons,
      show ltScStep 0 c = 0 from by simp [ltScStep, hy c (by simp)]]
    exact ih (fun c2 h2 => hy c2 (by simp [h2]))

/-- From state 1 (just after `<`), a `<`-free body that does not begin
with `sc`, followed by the closing `>`, ends in state 0 without ever
matching. -/
theorem ltscan_from1 (x : List Char) (hx : ∀ c ∈ x, c ≠ '<')
    (hsc : x.take 2 ≠ ['s', 'c']) :
    (x ++ ['>']).foldl ltScStep 1 = 0 := by
  match x with
  | [] => decide
  | c :: x' =>
    by_cases hcs : c = 's'
    · subst hcs
      match x' with
      | [] => decide
      | d :: x'' =>
        have hd : d ≠ 'c' := by
          intro h
          subst h
          exact hsc (by simp)
        rw [show ('s' :: d :: x'') ++ ['>'] = 's' :: d :: (x'' ++ ['>']) by simp]
        rw [List.foldl_cons, show ltScStep 1 's' = 2 from rfl]
        rw [List.foldl_cons,
          show ltScStep 2 d = 0 from by
            simp [ltScStep, hd, hx d (by simp)]]
        refine ltscan_zero _ ?_
        intro c2 h2
        rcases List.mem_append.mp h2 with h3 | h3
        · exact hx c2 (by simp [h3])
        · simp at h3
          subst h3
          decide
    · rw [show (c :: x') ++ ['>'] = c :: (x' ++ ['>']) by simp]
      rw [List.foldl_cons,
        show ltScStep 1 c = 0 from by
          simp [ltScStep, hcs, hx c (by simp)]]
      refine ltscan_zero _ ?_
      intro c2 h2
      rcases List.mem_append.mp h2 with h3 | h3
      · exact hx c2 (by simp [h3])
      · simp at h3
        subst h3
        decide

/-- Serialized attributes contain no `<` when the attribute is safe. -/
theorem serializeAttr_safe (a : List Char × Option (List Char))
    (ha : ∀ c ∈ a.1, c ≠ '<')
    (hv : ∀ v, a.2 = some v → ∀ c ∈ v, c ≠ '<') :
    ∀ c ∈ serializeAttr a, c ≠ '<' := by
  intro c hc
  rw [serializeAttr] at hc
  rcases List.mem_append.mp hc with h | h
  · rcases List.mem_cons.mp h with h | h
    · subst h; decide
    · exact ha c h
  · cases hval : a.2 with
    | none => rw [hval] at h; simp at h
    | some v =>
      rw [hval] at h
      rcases List.mem_append.mp h with h | h
      · rcases List.mem_cons.mp h with h | h
        · subst h; decide
        · rcases List.mem_cons.mp h with h | h
          · subst h; decide
          · exact hv v hval c h
      · simp at h
        subst h
        decide

/-- The flattened attribute serialization is empty or begins with a
space. -/
theorem attrsFlat_head (attrs : List (List Char × Option (List Char))) :
    (attrs.map serializeAttr).flatten = [] ∨
      ∃ t, (attrs.map serializeAttr).flatten = ' ' :: t := by
  match attrs with
  | [] => exact Or.inl rfl
  | a :: as =>
    right
    rw [List.map_cons, List.flatten_cons, serializeAttr]
    exact ⟨_, rfl⟩

/-- One serialized safe token scans from state 0 back to state 0. -/
theorem ltscan_tok (t : OutTok) (hsafe : serialSafeTok t = true) :
    (serializeTok t).foldl ltScStep 0 = 0 := by
  match t with
  | OutTok.text s =>
    rw [serialSafeTok, List.all_eq_true] at hsafe
    exact ltscan_zero s (fun c h => by simpa using hsafe c h)
  | OutTok.closeTag nm =>
    rw [serialSafeTok, List.all_eq_true] at hsafe
    rw [serializeTok]
    rw [List.foldl_cons, show ltScStep 0 '<' = 1 from rfl]
    rw [List.foldl_cons, show ltScStep 1 '/' = 0 from rfl]
    refine ltscan_zero _ ?_
    intro c h
    rcases List.mem_append.mp h with h3 | h3
    · simpa using hsafe c h3
    · simp at h3
      subst h3
      decide
  | OutTok.openTag nm attrs =>
    rw [serialSafeTok] at hsafe
    simp only [Bool.and_eq_true] at hsafe
    obtain ⟨⟨⟨hne, hlt⟩, hsc⟩, hattrs⟩ := hsafe
    have hne' : nm ≠ [] := of_decide_eq_true hne
    have hsc' : nm.take 2 ≠ ['s', 'c'] := of_decide_eq_true hsc
    rw [serializeTok]
    rw [List.foldl_cons, show ltScStep 0 '<' = 1 from rfl]
    have hflatSafe : ∀ c ∈ ((attrs.map serializeAttr).flatten), c ≠ '<' := by
      intro c hc
      rw [List.mem_flatten] at hc
      obtain ⟨piece, hpieceMem, hcMem⟩ := hc
      rw [List.mem_map] at hpieceMem
      obtain ⟨a, haMem, rfl⟩ := hpieceMem
      rw [List.all_eq_true] at hattrs
      have hA2 := hattrs a haMem
      rw [Bool.and_eq_true] at hA2
      refine serializeAttr_safe a ?_ ?_ c hcMem
      · intro c2 h2
        have := List.all_eq_true.mp hA2.1 c2 h2
        simpa using this
      · intro v hveq c2 h2
        have h3 := hA2.2
        rw [hveq] at h3
        have := List.all_eq_true.mp h3 c2 h2
        simpa using this
    have hx : ∀ c ∈ nm ++ (attrs.map serializeAttr).flatten, c ≠ '<' := by
      intro c hc
      rcases List.mem_append.mp hc with h3 | h3
      · have := List.all_eq_true.mp hlt c h3
        simpa using this
      · exact hflatSafe c h3
    have hx2 : (nm ++ (attrs.map serializeAttr).flatten).take 2 ≠ ['s', 'c'] := by
      match nm, hne', hsc' with
      | [], h, _ => exact absurd rfl h
      | [c1], _, _ =>
        rcases attrsFlat_head attrs with hfl | ⟨t2, hfl⟩
        · rw [hfl]
          simp
        · rw [hfl]
          simp
      | c1 :: c2 :: nm', _, hsc' =>
        intro h
        apply hsc'
        simp only [List.cons_append, List.take_succ_cons, List.take_zero] at h
        simpa using h
    exact ltscan_from1 _ hx hx2

/-- The protect scan on `<p>x</p>` + one protected block + `<p>y</p>`:
one placeholder, one map entry, everything else verbatim. -/
theorem protect_single_core (langD CD : List Char)
    (hbr : matchBlockAt (openLit ++ (langD ++ ('"' :: '>' ::
        (CD ++ (closeLit ++ "<p>y</p>".data))))) =
      some (langD, CD, "<p>y</p>".data)) :
    ∀ fuel : Nat, CD.length + 60 ≤ fuel →
      protectGo fuel ("<p>x</p>".data ++ (openLit ++ (langD ++ ('"' :: '>' ::
          (CD ++ (closeLit ++ "<p>y</p>".data)))))) 0 =
        ("<p>x</p>".data ++ ((placeholderDiv (placeholderFor 0)).data ++
            "<p>y</p>".data),
          [(placeholderFor 0, blockHtml langD CD)]) := by
  intro fuel hf
  have hpreA : noBlockPre "<p>x</p>".data (openLit ++ (langD ++ ('"' :: '>' ::
      (CD ++ (closeLit ++ "<p>y</p>".data))))) :=
    ⟨rfl, rfl, rfl, rfl, rfl, rfl, rfl, rfl, trivial⟩
  have hpreB : noBlockPre "<p>y</p>".data [] :=
    ⟨rfl, rfl, rfl, rfl, rfl, rfl, rfl, rfl, trivial⟩
  rw [protectGo_skip "<p>x</p>".data _ 0 fuel (by
    rw [show ("<p>x</p>".data).length = 8 from rfl]; omega) hpreA]
  obtain ⟨f2, hf2⟩ : ∃ f2, fuel - ("<p>x</p>".data).length = f2 + 1 :=
    ⟨fuel - ("<p>x</p>".data).length - 1, by
      rw [show ("<p>x</p>".data).length = 8 from rfl]; omega⟩
  have hinner : protectGo (fuel - ("<p>x</p>".data).length)
      (openLit ++ (langD ++ ('"' :: '>' ::
        (CD ++ (closeLit ++ "<p>y</p>".data))))) 0 =
      ((placeholderDiv (placeholderFor 0)).data ++ "<p>y</p>".data,
        [(placeholderFor 0, blockHtml langD CD)]) := by
    rw [hf2, protectGo_succ, hbr]
    show ((placeholderDiv (placeholderFor 0)).data ++
        (protectGo f2 ("<p>y</p>".data) 1).1,
      (placeholderFor 0, blockHtml langD CD) ::
        (protectGo f2 ("<p>y</p>".data) 1).2) = _
    rw [protectGo_only ("<p>y</p>".data) 1 f2 (by
      rw [show ("<p>y</p>".data).length = 8 from rfl]
      rw [show ("<p>x</p>".data).length = 8 from rfl] at hf2
      omega) hpreB]
  rw [hinner]

/-- Bridge: the block matcher on a mermaid frame reduces to the content
split. -/
theorem matchBlockAt_mermaid_frame (X : List Char) :
    matchBlockAt (openLit ++ ("mermaid".data ++ ('"' :: '>' :: X))) =
      (match splitAtFirst closeLit X with
       | some (content, rest) => some ("mermaid".data, content, rest)
       | none => none) := by
  simp [matchBlockAt, matchLang, openLit, List.isPrefixOf]

/-- Bridge: the block matcher on a math frame reduces to the content
split. -/
theorem matchBlockAt_math_frame (X : List Char) :
    matchBlockAt (openLit ++ ("math".data ++ ('"' :: '>' :: X))) =
      (match splitAtFirst closeLit X with
       | some (content, rest) => some ("math".data, content, rest)
       | none => none) := by
  simp [matchBlockAt, matchLang, openLit, List.isPrefixOf]

/-- `replaceFirst` through a known split of the subject. -/
theorem replaceFirst_eq (s pat repl : String) (b a : List Char)
    (hsp : splitAtFirst pat.data s.data = some (b, a)) :
    replaceFirst s pat repl =
      ⟨b ++ expandRepl pat.data b a repl.data.length repl.data ++ a⟩ := by
  rw [replaceFirst, hsp]

/-- Assembly of the protect/purify/restore round trip for a single
protected block between two paragraphs, given the matcher bridge for the
language. -/
theorem c2_assemble (langD : List Char) (c : String)
    (hlangD : ∀ ch ∈ langD, ch ≠ '$' ∧ ch ≠ '_')
    (hc : ∀ ch ∈ c.data, ch ≠ '<' ∧ ch ≠ '_' ∧ ch ≠ '$')
    (hbr : matchBlockAt (openLit ++ (langD ++ ('"' :: '>' ::
        (c.data ++ (closeLit ++ "<p>y</p>".data))))) =
      some (langD, c.data, "<p>y</p>".data))
    (hdata : ("<p>x</p>" ++ blockHtml langD c.data ++ "<p>y</p>").data =
      "<p>x</p>".data ++ (openLit ++ (langD ++ ('"' :: '>' ::
        (c.data ++ (closeLit ++ "<p>y</p>".data))))))
    (hlen : c.data.length + 60 ≤
      ("<p>x</p>" ++ blockHtml langD c.data ++ "<p>y</p>").data.length) :
    protect ("<p>x</p>" ++ blockHtml langD c.data ++ "<p>y</p>") =
      ("<p>x</p>" ++ placeholderDiv (placeholderFor 0) ++ "<p>y</p>",
        [(placeholderFor 0, blockHtml langD c.data)]) ∧
    sanitizeHtml true modelPurify
        ("<p>x</p>" ++ blockHtml langD c.data ++ "<p>y</p>") =
      "<p>x</p>" ++ blockHtml langD c.data ++ "<p>y</p>" ∧
    ¬ IsSubstr "__PROTECTED_BLOCK_"
        (sanitizeHtml true modelPurify
          ("<p>x</p>" ++ blockHtml langD c.data ++ "<p>y</p>")) := by
  have hlen' : c.data.length + 60 ≤
      ("<p>x</p>".data ++ (openLit ++ (langD ++ ('"' :: '>' ::
        (c.data ++ (closeLit ++ "<p>y</p>".data)))))).length := by
    rw [hdata] at hlen; exact hlen
  have hcore := protect_single_core langD c.data hbr
    (("<p>x</p>".data ++ (openLit ++ (langD ++ ('"' :: '>' ::
      (c.data ++ (closeLit ++ "<p>y</p>".data)))))).length) hlen'
  have hprot : protect ("<p>x</p>" ++ blockHtml langD c.data ++ "<p>y</p>") =
      ("<p>x</p>" ++ placeholderDiv (placeholderFor 0) ++ "<p>y</p>",
        [(placeholderFor 0, blockHtml langD c.data)]) := by
    show (String.mk (protectGo
        ("<p>x</p>" ++ blockHtml langD c.data ++ "<p>y</p>").data.length
        ("<p>x</p>" ++ blockHtml langD c.data ++ "<p>y</p>").data 0).1,
      (protectGo
        ("<p>x</p>" ++ blockHtml langD c.data ++ "<p>y</p>").data.length
        ("<p>x</p>" ++ blockHtml langD c.data ++ "<p>y</p>").data 0).2) = _
    rw [hdata, hcore]
    have hstr : String.mk ("<p>x</p>".data ++
        ((placeholderDiv (placeholderFor 0)).data ++ "<p>y</p>".data)) =
        "<p>x</p>" ++ placeholderDiv (placeholderFor 0) ++ "<p>y</p>" := by
      apply String.ext
      show "<p>x</p>".data ++ ((placeholderDiv (placeholderFor 0)).data ++
        "<p>y</p>".data) = _
      simp [String.data_append, List.append_assoc]
    rw [hstr]
  have hnodollar : ∀ ch ∈ (blockHtml langD c.data).data, ch ≠ '$' := by
    intro ch hch
    rw [show (blockHtml langD c.data).data =
      openLit ++ langD ++ '"' :: '>' :: c.data ++ closeLit from rfl] at hch
    rcases List.mem_append.mp hch with h1 | h
    · rcases List.mem_append.mp h1 with h2 | h3
      · rcases List.mem_append.mp h2 with h | h
        · exact (by decide : ∀ x ∈ openLit, x ≠ '$') ch h
        · exact (hlangD ch h).1
      · rcases List.mem_cons.mp h3 with h | h4
        · rw [h]; decide
        · rcases List.mem_cons.mp h4 with h | h
          · rw [h]; decide
          · exact (hc ch h).2.2
    · exact (by decide : ∀ x ∈ closeLit, x ≠ '$') ch h
  have hsan : sanitizeHtml true modelPurify
      ("<p>x</p>" ++ blockHtml langD c.data ++ "<p>y</p>") =
      "<p>x</p>" ++ blockHtml langD c.data ++ "<p>y</p>" := by
    show restore
        (modelPurify (protect ("<p>x</p>" ++ blockHtml langD c.data ++ "<p>y</p>")).1)
        (protect ("<p>x</p>" ++ blockHtml langD c.data ++ "<p>y</p>")).2 = _
    rw [hprot]
    show replaceFirst
        (modelPurify ("<p>x</p>" ++ placeholderDiv (placeholderFor 0) ++ "<p>y</p>"))
        (placeholderDiv (placeholderFor 0)) (blockHtml langD c.data) = _
    rw [show modelPurify
        ("<p>x</p>" ++ placeholderDiv (placeholderFor 0) ++ "<p>y</p>") =
        "<p>x</p>" ++ placeholderDiv (placeholderFor 0) ++ "<p>y</p>" from by decide]
    rw [replaceFirst_eq _ _ _ "<p>x</p>".data "<p>y</p>".data (by decide)]
    rw [expandRepl_id (placeholderDiv (placeholderFor 0)).data
      "<p>x</p>".data "<p>y</p>".data
      ((blockHtml langD c.data).data.length) ((blockHtml langD c.data).data)
      hnodollar]
    rfl
  refine ⟨hprot, hsan, ?_⟩
  rw [hsan]
  rintro ⟨a, b, hab⟩
  have hu : '_' ∈ ("<p>x</p>" ++ blockHtml langD c.data ++ "<p>y</p>").data := by
    rw [hab]
    exact List.mem_append.mpr (Or.inl (List.mem_append.mpr (Or.inr (by decide))))
  rw [hdata] at hu
  rcases List.mem_append.mp hu with h | hu2
  · exact absurd h (by decide)
  · rcases List.mem_append.mp hu2 with h | hu3
    · exact (by decide : ∀ x ∈ openLit, x ≠ '_') '_' h rfl
    · rcases List.mem_append.mp hu3 with h | hu4
      · exact (hlangD '_' h).2 rfl
      · rcases List.mem_cons.mp hu4 with h | hu5
        · exact absurd h (by decide)
        · rcases List.mem_cons.mp hu5 with h | hu6
          · exact absurd h (by decide)
          · rcases List.mem_append.mp hu6 with h | hu7
            · exact (hc '_' h).2.1 rfl
            · rcases List.mem_append.mp hu7 with h | h
              · exact (by decide : ∀ x ∈ closeLit, x ≠ '_') '_' h rfl
              · exact absurd h (by decide)

/-- A stream of safe tokens serializes to a string whose `<sc` scan stays
in state 0. -/
theorem ltscan_stream (toks : List OutTok)
    (h : ∀ t ∈ toks, serialSafeTok t = true) :
    ((toks.map serializeTok).flatten).foldl ltScStep 0 = 0 := by
  induction toks with
  | nil => rfl
  | cons t ts ih =>
    rw [List.map_cons, List.flatten_cons, List.foldl_append]
    rw [ltscan_tok t (h t (by simp))]
    exact ih (fun t2 h2 => h t2 (by simp [h2]))

/-- The modelled sanitation pass emits no `<sc` character sequence — in
particular, no `<script` opener. -/
theorem modelPurify_no_ltsc (s : String) : hasLtSc (modelPurify s) = false := by
  rw [hasLtSc]
  rw [show (modelPurify s).data = ((purifyTokens s).map serializeTok).flatten from rfl]
  rw [ltscan_stream _ (purifyTokens_serialSafe s)]
  decide

/-! ## Claim theorems -/

/-- C1: the claim asserts that for every markdown input the output of
`sanitizeHtml` contains no script-executing element, even when the raw
source embeds one as inline HTML inside content passing through the
protect/restore mechanism.  It fails exactly there: the parser passes raw
HTML through (`allowDangerousHtml`), so a source embedding a literal
`<pre><code class="language-mermaid">` block with a `<script>` element
inside reaches `sanitizeHtml`, whose protect step extracts that block
verbatim, bypasses the sanitation pass with it, and restores it verbatim:
the returned output still contains the `<script>` element — even though
the sanitation pass itself (here the model purifier, which provably never
emits a script element, see `c1_amended`) was never given it. -/
theorem c1_counterexample :
    sanitizeHtml true modelPurify
      "<pre><code class=\"language-mermaid\"><script>alert(1)</script></code></pre>" =
      "<pre><code class=\"language-mermaid\"><script>alert(1)</script></code></pre>" ∧
    IsSubstr "<script>"
      (sanitizeHtml true modelPurify
        "<pre><code class=\"language-mermaid\"><script>alert(1)</script></code></pre>") := by
  constructor
  · decide
  · refine ⟨"<pre><code class=\"language-mermaid\">".data,
      "alert(1)</script></code></pre>".data, ?_⟩
    decide

/-- C1 (amended): for inputs containing no protected-block pattern, the
protect step records nothing, `sanitizeHtml` returns exactly the
sanitation pass's output, and that output contains only allow-listed tags
(none of which is `script`) with allow-listed attributes (none of which
begins with `on`), and contains the character sequence `<sc` nowhere —
hence no `<script` opener.  Content that does match the protected-block
pattern is reinserted verbatim after sanitization and can carry raw
script markup from the source (see `c1_counterexample`). -/
theorem c1_amended (raw : String) (hnp : (protect raw).2 = []) :
    sanitizeHtml true modelPurify raw = modelPurify raw ∧
    (∀ t ∈ purifyTokens raw, outTokOk t = true) ∧
    hasLtSc (modelPurify raw) = false ∧
    (∀ n ∈ allowedTags, n ≠ "script") ∧
    (∀ n ∈ allowedAttrs, n.data.take 2 ≠ ['o', 'n']) := by
  refine ⟨?_, purifyTokens_ok raw, modelPurify_no_ltsc raw,
    fun n hn => (allowedTags_safe n hn).2.2.2,
    fun n hn => (allowedAttrs_safe n hn).2⟩
  show restore (modelPurify (protect raw).1) (protect raw).2 = modelPurify raw
  rw [hnp]
  show modelPurify (protect raw).1 = modelPurify raw
  have h1 : (protect raw).1 = raw := by
    apply String.ext
    exact protectGo_noMatch raw.data.length raw.data 0 hnp
  rw [h1]

/-- Witness for `c1_amended` at an input whose script sits outside any
protected block: the output is the purifier's, and is `<sc`-free. -/
theorem c1_amended_witness :
    sanitizeHtml true modelPurify "Hello <script>alert(1)</script>" =
      modelPurify "Hello <script>alert(1)</script>" ∧
    hasLtSc (modelPurify "Hello <script>alert(1)</script>") = false :=
  ⟨(c1_amended "Hello <script>alert(1)</script>" (by decide)).1,
   (c1_amended "Hello <script>alert(1)</script>" (by decide)).2.2.1⟩

/-- C2: counterexample.  A math fenced block whose content is the two
characters `$$` is not preserved byte-for-byte across the sanitize step:
the restore step feeds the block through the replacement-pattern expansion
of `String.replace`, which collapses `$$` to `$`. -/
theorem c2_counterexample :
    sanitizeHtml true modelPurify
        "<pre><code class=\"language-math\">$$</code></pre>" =
      "<pre><code class=\"language-math\">$</code></pre>" ∧
    "<pre><code class=\"language-math\">$</code></pre>" ≠
      "<pre><code class=\"language-math\">$$</code></pre>" :=
  ⟨by decide, by decide⟩

/-- C2 (amended): for a mermaid or math fenced block whose content avoids
the replacement-sensitive characters `<`, `_` and `$`, the protect step
inserts exactly one placeholder with exactly one map entry, the sanitize
step returns the input byte-for-byte (the block content round-trips
unchanged), and no placeholder token appears in the output. -/
theorem c2_amended (lang c : String)
    (hlang : lang = "mermaid" ∨ lang = "math")
    (hc : ∀ ch ∈ c.data, ch ≠ '<' ∧ ch ≠ '_' ∧ ch ≠ '$') :
    protect ("<p>x</p>" ++ blockHtml lang.data c.data ++ "<p>y</p>") =
      ("<p>x</p>" ++ placeholderDiv (placeholderFor 0) ++ "<p>y</p>",
        [(placeholderFor 0, blockHtml lang.data c.data)]) ∧
    sanitizeHtml true modelPurify
        ("<p>x</p>" ++ blockHtml lang.data c.data ++ "<p>y</p>") =
      "<p>x</p>" ++ blockHtml lang.data c.data ++ "<p>y</p>" ∧
    ¬ IsSubstr "__PROTECTED_BLOCK_"
        (sanitizeHtml true modelPurify
          ("<p>x</p>" ++ blockHtml lang.data c.data ++ "<p>y</p>")) := by
  rcases hlang with rfl | rfl
  · apply c2_assemble "mermaid".data c (by decide) hc
    · rw [matchBlockAt_mermaid_frame,
        splitAtFirst_frame c.data ("<p>y</p>".data) (fun ch hch => (hc ch hch).1)]
    · rw [show ("<p>x</p>" ++ blockHtml "mermaid".data c.data ++ "<p>y</p>").data =
        "<p>x</p>".data ++
          ((openLit ++ "mermaid".data ++ '"' :: '>' :: c.data ++ closeLit) ++
            "<p>y</p>".data) from rfl]
      simp [List.append_assoc, List.cons_append]
    · rw [show ("<p>x</p>" ++ blockHtml "mermaid".data c.data ++ "<p>y</p>").data =
        "<p>x</p>".data ++
          ((openLit ++ "mermaid".data ++ '"' :: '>' :: c.data ++ closeLit) ++
            "<p>y</p>".data) from rfl]
      simp only [List.length_append, List.length_cons, List.length_nil,
        show openLit.length = 27 from rfl, show closeLit.length = 13 from rfl]
      omega
  · apply c2_assemble "math".data c (by decide) hc
    · rw [matchBlockAt_math_frame,
        splitAtFirst_frame c.data ("<p>y</p>".data) (fun ch hch => (hc ch hch).1)]
    · rw [show ("<p>x</p>" ++ blockHtml "math".data c.data ++ "<p>y</p>").data =
        "<p>x</p>".data ++
          ((openLit ++ "math".data ++ '"' :: '>' :: c.data ++ closeLit) ++
            "<p>y</p>".data) from rfl]
      simp [List.append_assoc, List.cons_append]
    · rw [show ("<p>x</p>" ++ blockHtml "math".data c.data ++ "<p>y</p>").data =
        "<p>x</p>".data ++
          ((openLit ++ "math".data ++ '"' :: '>' :: c.data ++ closeLit) ++
            "<p>y</p>".data) from rfl]
      simp only [List.length_append, List.length_cons, List.length_nil,
        show openLit.length = 27 from rfl, show closeLit.length = 13 from rfl]
      omega

/-- C2 witness: the amended round trip evaluated on a concrete mermaid
block. -/
theorem c2_amended_witness :
    protect ("<p>x</p>" ++ blockHtml "mermaid".data "graph TD".data ++ "<p>y</p>") =
      ("<p>x</p>" ++ placeholderDiv (placeholderFor 0) ++ "<p>y</p>",
        [(placeholderFor 0, blockHtml "mermaid".data "graph TD".data)]) ∧
    sanitizeHtml true modelPurify
        ("<p>x</p>" ++ blockHtml "mermaid".data "graph TD".data ++ "<p>y</p>") =
      "<p>x</p>" ++ blockHtml "mermaid".data "graph TD".data ++ "<p>y</p>" ∧
    ¬ IsSubstr "__PROTECTED_BLOCK_"
        (sanitizeHtml true modelPurify
          ("<p>x</p>" ++ blockHtml "mermaid".data "graph TD".data ++ "<p>y</p>")) :=
  c2_amended "mermaid" "graph TD" (Or.inl rfl) (by decide)

/-- C3: the claim states that when the diagram render call fails,
`renderMermaidDiagrams` replaces the block with a visibly marked error
panel carrying the failure message and the HTML-escaped source, never
leaving the raw unrendered source silently in place.  The code does the
opposite: the `catch` branch (src/lib/markdownEngine.ts lines 268-271)
only logs a warning and leaves the `pre`/`code` block exactly as it was.
At this concrete failing render the output equals the input — the raw
source is still in place and no error panel of any form was produced. -/
theorem c3_counterexample :
    renderMermaidDiagrams (fun _ => Except.error "Parse error on line 2")
        [MNode.mermaidPre "graph TD\nA-=>B", MNode.other "<p>rest</p>"] =
      [MNode.mermaidPre "graph TD\nA-=>B", MNode.other "<p>rest</p>"] := by
  decide

/-- C3 (amended): on a successful render `renderMermaidDiagrams` replaces
the `pre` block with a `div.mermaid-diagram` wrapper holding the SVG; on
a failing render it catches the error, logs, and leaves the original
block unchanged in place (it never substitutes an error panel); blank
sources are skipped. -/
theorem c3_amended (render : String → Except String String) (src : String) :
    (∀ svg, jsTrim src ≠ "" → render (jsTrim src) = Except.ok svg →
      renderMermaidStep render (MNode.mermaidPre src) = MNode.rendered svg) ∧
    (∀ m, render (jsTrim src) = Except.error m →
      renderMermaidStep render (MNode.mermaidPre src) = MNode.mermaidPre src) := by
  constructor
  · intro svg hne hok
    simp [renderMermaidStep, if_neg hne, hok]
  · intro m herr
    by_cases hb : jsTrim src = ""
    · simp [renderMermaidStep, hb]
    · simp [renderMermaidStep, if_neg hb, herr]

/-- Witness for `c3_amended` at a concrete render and source. -/
theorem c3_amended_witness :
    renderMermaidStep (fun _ => Except.ok "<svg>ok</svg>")
        (MNode.mermaidPre " graph TD ") = MNode.rendered "<svg>ok</svg>" ∧
    renderMermaidStep (fun _ => Except.error "boom")
        (MNode.mermaidPre "graph TD") = MNode.mermaidPre "graph TD" :=
  ⟨(c3_amended (fun _ => Except.ok "<svg>ok</svg>") " graph TD ").1
      "<svg>ok</svg>" (by decide) rfl,
   (c3_amended (fun _ => Except.error "boom") "graph TD").2 "boom" rfl⟩

/-- C4: `parseMarkdown` never rejects — for every chain outcome the
returned promise resolves; and when the chain throws (on nonempty input,
where it runs at all) the resolved value is the styled error block naming
the failure, which visibly contains both the `Processing Error:` marker
and the thrown message. -/
theorem c4_parseMarkdown_never_rejects
    (chain : String → Except String String) (content : String) :
    (∃ html, parseMarkdown chain content = Except.ok html) ∧
    (∀ m, content ≠ "" → chain content = Except.error m →
      parseMarkdown chain content = Except.ok (errorFragment m) ∧
      IsSubstr "Processing Error:" (errorFragment m) ∧
      IsSubstr m (errorFragment m)) := by
  constructor
  · unfold parseMarkdown
    by_cases hc : content = ""
    · exact ⟨"", by simp [hc]⟩
    · cases h : chain content with
      | ok v => exact ⟨v, by simp [hc, h]⟩
      | error m => exact ⟨errorFragment m, by simp [hc, h]⟩
  · intro m hc herr
    refine ⟨by simp [parseMarkdown, hc, herr], ?_, ?_⟩
    · refine ⟨"<div style=\"color: red; border: 1px solid red; padding: 1rem;\">\n      <strong>".data,
        "</strong> ".data ++ m.data ++ "\n    </div>".data, ?_⟩
      simp [errorFragment, String.data_append]
    · refine ⟨"<div style=\"color: red; border: 1px solid red; padding: 1rem;\">\n      <strong>Processing Error:</strong> ".data,
        "\n    </div>".data, ?_⟩
      simp [errorFragment, String.data_append]

/-- Witness for `c4_parseMarkdown_never_rejects` at a throwing chain. -/
theorem c4_parseMarkdown_never_rejects_witness :
    (∃ html, parseMarkdown (fun _ => Except.error "bad token") "# x" =
      Except.ok html) ∧
    parseMarkdown (fun _ => Except.error "bad token") "# x" =
      Except.ok (errorFragment "bad token") ∧
    IsSubstr "Processing Error:" (errorFragment "bad token") :=
  ⟨(c4_parseMarkdown_never_rejects (fun _ => Except.error "bad token") "# x").1,
   ((c4_parseMarkdown_never_rejects (fun _ => Except.error "bad token") "# x").2
      "bad token" (by decide) rfl).1,
   ((c4_parseMarkdown_never_rejects (fun _ => Except.error "bad token") "# x").2
      "bad token" (by decide) rfl).2.1⟩

/-- No alias in the callout registry is also a canonical key. -/
theorem callout_alias_not_key :
    ∀ e ∈ CALLOUT_TYPES, ∀ a ∈ e.aliases, ∀ e2 ∈ CALLOUT_TYPES, e2.name ≠ a := by
  decide

/-- Alias lists of the callout registry are disjoint across distinct
types (spec §3: "alias lists are disjoint across types"). -/
theorem callout_alias_disjoint :
    ∀ e1 ∈ CALLOUT_TYPES, ∀ e2 ∈ CALLOUT_TYPES,
      ∀ a, a ∈ e1.aliases → a ∈ e2.aliases → e1.name = e2.name := by
  decide

/-- C5: the claim states that every non-empty identifier resolves to some
defined canonical type.  It fails on identifiers naming inherited
`Object.prototype` properties: `CALLOUT_TYPES` is a plain object literal,
so the bracket lookup `CALLOUT_TYPES[lower]` walks the prototype chain
and is truthy for `constructor` and `__proto__` (both already
lower-case, so reachable from real input), and `resolveCalloutType`
returns those identifiers themselves — which are not canonical registry
keys. -/
theorem c5_counterexample :
    resolveCalloutType "constructor" = "constructor" ∧
    "constructor" ∉ calloutKeys ∧
    resolveCalloutType "__proto__" = "__proto__" ∧
    "__proto__" ∉ calloutKeys := by decide

/-- C5 (amended): callout type resolution is total away from the
inherited-property names — for every identifier whose lower-cased
(trimmed) form is not an `Object.prototype` property name the result is a
canonical registry key: the lower-cased identifier when that is a key,
the owning type of a matching alias otherwise, and the fallback `note`
when nothing matches.  The function is a total Lean function, so it can
neither throw nor return an undefined value; but on the inherited names
it returns a non-registry string (see `c5_counterexample`). -/
theorem c5_amended (s : String) (_hs : s ≠ "")
    (hp : jsTrim (jsLower s) ∉ objectProtoProps) :
    resolveCalloutType s ∈ calloutKeys ∧
    (∀ e ∈ CALLOUT_TYPES, jsTrim (jsLower s) = e.name →
      resolveCalloutType s = e.name) ∧
    (∀ e ∈ CALLOUT_TYPES, jsTrim (jsLower s) ∈ e.aliases →
      resolveCalloutType s = e.name) ∧
    ((∀ e ∈ CALLOUT_TYPES, jsTrim (jsLower s) ≠ e.name ∧
        jsTrim (jsLower s) ∉ e.aliases) →
      resolveCalloutType s = "note") := by
  have hpc : objectProtoProps.contains (jsTrim (jsLower s)) = false := by
    simpa using hp
  refine ⟨?_, ?_, ?_, ?_⟩
  · unfold resolveCalloutType
    simp only [hpc, Bool.or_false]
    by_cases hk : (CALLOUT_TYPES.find? (fun e => e.name = jsTrim (jsLower s))).isSome = true
    · rcases Option.isSome_iff_exists.mp hk with ⟨e, he⟩
      have hmem := List.mem_of_find?_eq_some he
      have hpred := List.find?_some he
      simp only [decide_eq_true_eq] at hpred
      rw [if_pos hk, ← hpred]
      exact List.mem_map_of_mem (·.name) hmem
    · rw [if_neg hk]
      cases hf : CALLOUT_TYPES.find? (fun e => e.aliases.contains (jsTrim (jsLower s))) with
      | none => decide
      | some e =>
        exact List.mem_map_of_mem (·.name) (List.mem_of_find?_eq_some hf)
  · intro e he hname
    have hk : (CALLOUT_TYPES.find? (fun e2 => e2.name = jsTrim (jsLower s))).isSome = true := by
      rw [List.find?_isSome]
      exact ⟨e, he, by simp [hname]⟩
    unfold resolveCalloutType
    simp only [hpc, Bool.or_false]
    rw [if_pos hk, hname]
  · intro e he halias
    have hk : ¬ (CALLOUT_TYPES.find?
        (fun e2 => e2.name = jsTrim (jsLower s))).isSome = true := by
      cases hf : CALLOUT_TYPES.find? (fun e2 => e2.name = jsTrim (jsLower s)) with
      | none => simp
      | some e2 =>
        have hpred := List.find?_some hf
        simp only [decide_eq_true_eq] at hpred
        exact absurd hpred
          (callout_alias_not_key e he _ halias e2 (List.mem_of_find?_eq_some hf))
    have hex : (CALLOUT_TYPES.find?
        (fun e2 => e2.aliases.contains (jsTrim (jsLower s)))).isSome = true := by
      rw [List.find?_isSome]
      exact ⟨e, he, by simpa using halias⟩
    rcases Option.isSome_iff_exists.mp hex with ⟨e2, hf⟩
    have h1 := List.find?_some hf
    simp only [decide_eq_true_eq] at h1
    replace h1 : jsTrim (jsLower s) ∈ e2.aliases := by simpa using h1
    have hown := callout_alias_disjoint e2 (List.mem_of_find?_eq_some hf) e he _ h1 halias
    unfold resolveCalloutType
    simp only [hpc, Bool.or_false]
    rw [if_neg hk, hf]
    exact hown
  · intro hnone
    have hk : ¬ (CALLOUT_TYPES.find?
        (fun e => e.name = jsTrim (jsLower s))).isSome = true := by
      cases hf : CALLOUT_TYPES.find? (fun e => e.name = jsTrim (jsLower s)) with
      | none => simp
      | some e =>
        have hpred := List.find?_some hf
        simp only [decide_eq_true_eq] at hpred
        exact absurd hpred.symm ((hnone e (List.mem_of_find?_eq_some hf)).1)
    have ha : CALLOUT_TYPES.find? (fun e => e.aliases.contains (jsTrim (jsLower s))) = none := by
      cases hf : CALLOUT_TYPES.find? (fun e => e.aliases.contains (jsTrim (jsLower s))) with
      | none => rfl
      | some e =>
        have hpred := List.find?_some hf
        replace hpred : jsTrim (jsLower s) ∈ e.aliases := by simpa using hpred
        exact absurd hpred ((hnone e (List.mem_of_find?_eq_some hf)).2)
    unfold resolveCalloutType
    simp only [hpc, Bool.or_false]
    rw [if_neg hk, ha]

/-- Witness for `c5_amended`: the alias `Caution` (with casing, not an
inherited property name) resolves to its owning type `warning`, which is
a registry key. -/
theorem c5_amended_witness :
    resolveCalloutType "Caution" ∈ calloutKeys ∧
    resolveCalloutType "Caution" = "warning" :=
  ⟨(c5_amended "Caution" (by decide) (by decide)).1,
   (c5_amended "Caution" (by decide) (by decide)).2.2.1
     ⟨"warning", "#ff9100", "⚠️", ["caution", "attention"]⟩
     (by decide) (by decide)⟩

/-- C6: `preprocessMarkdown` rewrites a well-formed `==a==` pair into
`<mark>a</mark>` (well-formed: nonempty content `a` with no internal `==`
and not ending in `=`, per the non-greedy matching rule, encoded by
`okTail`); input on which the highlight pattern matches nowhere is
returned unchanged; the empty input yields the empty output. -/
theorem c6_preprocess_highlight :
    (∀ a : String, a ≠ "" → okTail a.data = true →
      preprocessMarkdown ("==" ++ a ++ "==") = "<mark>" ++ a ++ "</mark>") ∧
    (∀ s : String, hasHlMatch s = false → preprocessMarkdown s = s) ∧
    preprocessMarkdown "" = "" := by
  refine ⟨?_, ?_, rfl⟩
  · intro a hne hok
    have hdne : a.data ≠ [] := fun h => hne (String.ext h)
    apply String.ext
    show preprocessGo ("==" ++ a ++ "==").data.length ("==" ++ a ++ "==").data =
      ("<mark>" ++ a ++ "</mark>").data
    have hdata : ("==" ++ a ++ "==").data = '=' :: '=' :: (a.data ++ ['=', '=']) := by
      simp [String.data_append]
    rw [hdata]
    rw [show ('=' :: '=' :: (a.data ++ ['=', '='])).length =
          (a.data.length + 3) + 1 by simp [List.length_append]]
    rw [preprocessGo_single a.data hdne hok]
    simp [String.data_append]
  · intro s h
    exact String.ext (preprocessGo_noMatch _ _ h)

/-- Witness for `c6_preprocess_highlight` at a concrete pair and a
concrete non-matching input. -/
theorem c6_preprocess_highlight_witness :
    preprocessMarkdown ("==" ++ "hi" ++ "==") = "<mark>" ++ "hi" ++ "</mark>" ∧
    preprocessMarkdown "plain text" = "plain text" ∧
    preprocessMarkdown "" = "" :=
  ⟨c6_preprocess_highlight.1 "hi" (by decide) (by decide),
   c6_preprocess_highlight.2.1 "plain text" (by decide),
   c6_preprocess_highlight.2.2⟩

/-- C7: the claim (and the source's own comment, "not across newlines for
safety") states that a `==...==` pair whose content spans a newline is
never replaced.  But the regex content atom `[^=]` is a negated character
class, which in JavaScript also matches a newline, so the pair IS
replaced: on `"==a\nb=="` the preprocessor produces a highlight tag whose
content contains the newline. -/
theorem c7_multiline_highlight_eval :
    preprocessMarkdown "==a\nb==" = "<mark>a\nb</mark>" ∧
    '\n' ∈ "a\nb".data := by decide

/-- C8: the claim states that a callout marker with no explicit title gets
the capitalized type name as its title text.  In the code,
`const titleText = calloutMatch[2] || rawType` already replaces the empty
title with the raw identifier, so the later capitalization fallback
`titleText || capitalize(resolvedType)` can never fire: the rendered
title for `[!note]` is the uncapitalized `note`, not `Note`. -/
theorem c8_default_title_eval :
    calloutTitleRendered "[!note]" = some "note" ∧
    capitalizeJS (resolveCalloutType "note") = "Note" ∧
    ("note" : String) ≠ "Note" := by decide

/-- C9: the claim states that both the style-resolver output and the
export path escape embedded quotes in the header/footer content strings.
The export path does, but `stylesToCSSVars` interpolates the raw field:
for a header text containing a quote the generated `--md-header-left`
value keeps the bare quote and differs from the properly escaped form. -/
theorem c9_counterexample :
    (stylesToCSSVarsHF ⟨"a\"b", "", "", "", "", ""⟩).head? =
      some ("--md-header-left", "\"a\"b\"") ∧
    ("\"a\"b\"" : String) ≠ quoteWrap (escapeQuotes "a\"b") := by decide

/-- C9 (amended): the export path (`printPdf`) escapes embedded quotes in
every header/footer slot; the style-resolver (`stylesToCSSVars`)
interpolates the raw value unescaped, so its slot strings agree with the
escaped form only when the value contains no quote character. -/
theorem c9_amended (v : String) :
    printPdfSlot v = quoteWrap (escapeQuotes v) ∧
    ('"' ∉ v.data → cssVarSlot v = quoteWrap (escapeQuotes v)) := by
  constructor
  · unfold printPdfSlot
    by_cases hv : v = ""
    · subst hv; rfl
    · rw [if_neg hv]
  · intro h
    unfold cssVarSlot
    rw [escapeQuotes_eq_self v h]

/-- Witness for `c9_amended`: a quoted value through the export path and
a quote-free value through the style resolver. -/
theorem c9_amended_witness :
    printPdfSlot "a\"b" = quoteWrap (escapeQuotes "a\"b") ∧
    cssVarSlot "Report" = quoteWrap (escapeQuotes "Report") :=
  ⟨(c9_amended "a\"b").1, (c9_amended "Report").2 (by decide)⟩

/-- C10: the worker message handler posts no response at all for a
non-string payload — neither a success nor an error message — and posts
exactly one response (success or failure) for every string payload. -/
theorem c10_worker_nonstring_silent
    (parse : String → Except String String) (d : JSData) :
    (d = JSData.nonString → workerOnMessage parse d = none) ∧
    (∀ s, d = JSData.str s → (workerOnMessage parse d).isSome = true) := by
  constructor
  · rintro rfl
    rfl
  · rintro s rfl
    cases h : parse s <;> simp [workerOnMessage, h]

/-- Witness for `c10_worker_nonstring_silent` at a concrete parse
function and payloads. -/
theorem c10_worker_nonstring_silent_witness :
    workerOnMessage (fun s => Except.ok (s ++ "!")) JSData.nonString = none ∧
    (workerOnMessage (fun s => Except.ok (s ++ "!"))
      (JSData.str "# title")).isSome = true :=
  ⟨(c10_worker_nonstring_silent (fun s => Except.ok (s ++ "!"))
      JSData.nonString).1 rfl,
   (c10_worker_nonstring_silent (fun s => Except.ok (s ++ "!"))
      (JSData.str "# title")).2 "# title" rfl⟩

end MKtoPDF
